import Mathlib

/-!
Verification of the LilyCloudProto storage gateway.

This file shallowly embeds the path handling, mount resolution, trash
naming, task-worker and batch-operation logic of the repository
(`lilycloudproto/infra/drivers/local_driver.py`,
`lilycloudproto/infra/drivers/s3_driver.py`,
`lilycloudproto/infra/services/storage_service.py`,
`lilycloudproto/infra/services/task_worker.py`,
`lilycloudproto/apis/trash.py`, `lilycloudproto/apis/files.py`) and proves
or refutes the specified properties about them.

The Python standard-library path functions the code relies on
(`posixpath.join`, `normpath`, `commonpath`, `relpath`, `splitext`,
`str.lstrip`/`rstrip`/`strip`/`startswith`) are embedded character-for-
character from their CPython definitions (POSIX flavour, which is what
the spec's path examples use).
-/

namespace LilyCloud

/-! ### CPython `str` primitives -/

/-- The characters stripped by the repository's `lstrip("/\\")` calls. -/
def isSlashOrBack (c : Char) : Bool := c = '/' || c = '\\'

/-- `s.lstrip("/\\")`: drop leading slashes and backslashes. -/
def lstripSlashes (s : String) : String := String.mk (s.toList.dropWhile isSlashOrBack)

/-- `s.lstrip("/")`: drop leading forward slashes only. -/
def lstripSlash (s : String) : String := String.mk (s.toList.dropWhile (· = '/'))

/-- `s.rstrip("/")`: drop trailing forward slashes. -/
def rstripSlash (s : String) : String :=
  String.mk (s.toList.reverse.dropWhile (· = '/')).reverse

/-- `s.strip("/")`: drop slashes at both ends. -/
def stripSlash (s : String) : String := rstripSlash (lstripSlash s)

/-- Boolean prefix test on lists (the computation behind `str.startswith`). -/
def listIsPre {α : Type} [DecidableEq α] : List α → List α → Bool
  | [], _ => true
  | _ :: _, [] => false
  | a :: as, b :: bs => a = b && listIsPre as bs

/-- `s.startswith(p)` (receiver first, as in Python). -/
def pyStartsWith (s p : String) : Bool := listIsPre p.toList s.toList

/-- `s.endswith(p)` for the single-character suffixes used by `posixpath.join`. -/
def pyEndsWith (s p : String) : Bool := listIsPre p.toList.reverse s.toList.reverse

/-- `s[n:]`: drop the first `n` characters. -/
def pyDrop (s : String) (n : Nat) : String := String.mk (s.toList.drop n)

/-- Split a character list on `'/'` (the computation behind `s.split("/")`). -/
def splitSlashAux : List Char → List Char → List String
  | [], acc => [String.mk acc.reverse]
  | c :: cs, acc =>
    if c = '/' then String.mk acc.reverse :: splitSlashAux cs []
    else splitSlashAux cs (c :: acc)

/-- `s.split("/")`. -/
def splitSlash (s : String) : List String := splitSlashAux s.toList []

/-- `"/".join(parts)` (and `", ".join` etc. with other separators). -/
def intercal (sep : String) : List String → String
  | [] => ""
  | [x] => x
  | x :: xs => x ++ sep ++ intercal sep xs

/-! ### CPython `posixpath` functions -/

/-- `posixpath.join(a, b)` for two arguments:
if `b` is absolute it replaces `a`, otherwise it is appended with a
separator unless `a` is empty or already ends in one. -/
def pyJoin (a b : String) : String :=
  if pyStartsWith b "/" then b
  else if a = "" || pyEndsWith a "/" then a ++ b
  else a ++ "/" ++ b

/-- The component-collapsing loop of `posixpath.normpath`: drop empty and
`"."` components, and let `".."` cancel the previously kept component
(except at the start of a relative path or after another kept `".."`).
The accumulator holds the kept components in reverse. -/
def normAux (isAbs : Bool) : List String → List String → List String
  | acc, [] => acc.reverse
  | acc, c :: cs =>
    if c = "" || c = "." then normAux isAbs acc cs
    else if c ≠ ".." || (!isAbs && acc = []) || acc.head? = some ".." then
      normAux isAbs (c :: acc) cs
    else
      normAux isAbs acc.tail cs

/-- The number of leading slashes `posixpath.normpath` preserves:
2 for exactly-double leading slashes (POSIX special case), else 1 or 0. -/
def leadSlashes (p : String) : Nat :=
  if pyStartsWith p "//" && !pyStartsWith p "///" then 2
  else if pyStartsWith p "/" then 1 else 0

/-- The kept components of `posixpath.normpath`. -/
def normComps (p : String) : List String :=
  normAux (leadSlashes p ≠ 0) [] (splitSlash p)

/-- `posixpath.normpath`: preserved leading slashes followed by the joined
kept components, or `"."` when that is empty. -/
def pyNormpath (p : String) : String :=
  if p = "" then "."
  else if String.mk (List.replicate (leadSlashes p) '/') ++ intercal "/" (normComps p) = ""
    then "."
  else String.mk (List.replicate (leadSlashes p) '/') ++ intercal "/" (normComps p)

/-- Longest common prefix of two lists (the computation performed by
`genericpath.commonprefix` via `min`/`max` and first-mismatch truncation). -/
def lcp {α : Type} [DecidableEq α] : List α → List α → List α
  | [], _ => []
  | _, [] => []
  | a :: as, b :: bs => if a = b then a :: lcp as bs else []

/-- The path components `posixpath.commonpath` compares: split on `/`,
dropping empty and `"."` components. -/
def pathComps (s : String) : List String :=
  (splitSlash s).filter (fun c => c ≠ "" && c ≠ ".")

/-- The error taxonomy of `lilycloudproto/error.py` (the kinds raised by the
embedded code), plus Python's builtin `ValueError`. -/
inductive PyErr
  | badRequest (msg : String)
  | notFound (msg : String)
  | conflict (msg : String)
  | internal (msg : String)
  | valueError (msg : String)
deriving DecidableEq, Repr

/-- `posixpath.commonpath([p, q])` for exactly two paths: error on mixing an
absolute with a relative path, otherwise the joined longest common
component list (`min`/`max` plus first-mismatch truncation compute exactly
the componentwise longest common prefix, embedded here as `lcp`). -/
def pyCommonpath2 (p q : String) : Except PyErr String :=
  if pyStartsWith p "/" ≠ pyStartsWith q "/" then
    Except.error (PyErr.valueError "Cannot mix absolute and relative paths")
  else
    Except.ok ((if pyStartsWith p "/" then "/" else "")
      ++ intercal "/" (lcp (pathComps p) (pathComps q)))

/-- `posixpath.relpath(path, start)` for absolute inputs, for which
`abspath` coincides with `normpath`: count the shared leading components,
climb out of the remainder of `start` with `".."` and descend into the
remainder of `path`. -/
def pyRelpath (path start : String) : String :=
  let startList := (splitSlash (pyNormpath start)).filter (fun x => x ≠ "")
  let pathList := (splitSlash (pyNormpath path)).filter (fun x => x ≠ "")
  let i := (lcp startList pathList).length
  let relList := List.replicate (startList.length - i) ".." ++ pathList.drop i
  if relList = [] then "." else intercal "/" relList

/-- Split off the part of `l` after its last `'/'` (dir part keeps the
slash), mirroring the `rfind('/')` arithmetic of `posixpath.splitext`. -/
def splitLastSlash (l : List Char) : List Char × List Char :=
  let r := l.reverse
  let b := r.takeWhile (· ≠ '/')
  ((r.drop b.length).reverse, b.reverse)

/-- `posixpath.splitext(p)`: split at the last dot of the final component,
unless every character of that component before the dot is itself a dot
(so `".bashrc"` and `"..txt"` do not split). -/
def pySplitext (p : String) : String × String :=
  let db := splitLastSlash p.toList
  let base := db.2
  let r := base.reverse
  let afterDot := r.takeWhile (· ≠ '.')
  if afterDot.length = base.length then (p, "")
  else
    let stem := (r.drop (afterDot.length + 1)).reverse
    if stem.any (fun c => c ≠ '.') then
      (String.mk (db.1 ++ stem), String.mk ('.' :: afterDot.reverse))
    else (p, "")

example : pyNormpath "/data/../datax" = "/datax" := by decide
example : pyNormpath "/a/b/./c//d/.." = "/a/b/c" := by decide
example : pyNormpath "" = "." := by decide
example : pyNormpath "a/../.." = ".." := by decide
example : pyJoin "/data" "../datax" = "/data/../datax" := by decide
example : pySplitext "a.txt" = ("a", ".txt") := by decide
example : pySplitext ".bashrc" = (".bashrc", "") := by decide
example : pySplitext "d/a.b.c" = ("d/a.b", ".c") := by decide
example : pyRelpath "/docs/a.txt" "/docs" = "a.txt" := by decide
example : pyCommonpath2 "/t" "/t/a" = Except.ok "/t" := rfl
example : pyCommonpath2 "/data" "/datax" = Except.ok "/" := rfl

/-! ### `LocalDriver` physical path resolution
(`infra/drivers/local_driver.py`) -/

/-- The base a `LocalDriver` resolves against (`domain/driver.py`: `Base`). -/
inductive DriverBase
  | regular
  | trash
  | share
deriving DecidableEq, Repr

/-- The root selected by `LocalDriver._get_physical_path` for a base:
`REGULAR` and (unimplemented) `SHARE` use `root_path`, `TRASH` uses
`trash_path`. -/
def physicalRoot (rootPath trashPath : String) : DriverBase → String
  | DriverBase.regular => rootPath
  | DriverBase.trash => trashPath
  | DriverBase.share => rootPath

/-- The core of `LocalDriver._get_physical_path` for a given root: strip
leading slashes off the logical path, join it under the root, normalize,
and require the result to start (as a string) with the root. -/
def getPhysicalPathFrom (root logicalPath : String) : Except PyErr String :=
  let lp := lstripSlashes logicalPath
  let physicalPath := pyNormpath (pyJoin root lp)
  if !pyStartsWith physicalPath root then
    Except.error (PyErr.badRequest "Path traversal detected.")
  else Except.ok physicalPath

/-- `LocalDriver._get_physical_path`, selecting the root from the driver's
base. -/
def get_physical_path (rootPath trashPath : String) (base : DriverBase)
    (logicalPath : String) : Except PyErr String :=
  getPhysicalPathFrom (physicalRoot rootPath trashPath base) logicalPath

/-- `candidate` lies inside `root` in the component sense: the normalized
root's components are a prefix of the candidate's components (so the
candidate is the root itself or strictly below it). -/
def insideRoot (root candidate : String) : Prop :=
  pathComps (pyNormpath root) <+: pathComps candidate

instance insideRootDec (root candidate : String) : Decidable (insideRoot root candidate) := by
  unfold insideRoot
  infer_instance

/-- C1 counterexample: with backend root `/data`, the logical path
`../datax` normalizes to `/datax`, which lies outside the root, yet
`_get_physical_path` returns it successfully (no `BadRequest`), because
the guard is a plain string-prefix check and `"/datax"` starts with
`"/data"`. -/
theorem c1_path_check_not_containment :
    get_physical_path "/data" "/data/.trash" DriverBase.regular "../datax"
      = Except.ok "/datax"
    ∧ ¬ insideRoot "/data" "/datax" := by
  refine ⟨rfl, ?_⟩
  decide

/-- C1 (amended): for every `LocalDriver` base and logical path, the
returned physical path is the normalization of the logical path joined
under the base's root and has the root as a *string* prefix; and
`BadRequest` ("Path traversal detected.") is raised exactly when that
string-prefix check fails. (The string-prefix check does not coincide
with containment in the root: see the counterexample.) -/
theorem c1_physical_path_string_check (rootPath trashPath : String)
    (base : DriverBase) (logicalPath : String) :
    (∀ p, get_physical_path rootPath trashPath base logicalPath = Except.ok p →
      pyStartsWith p (physicalRoot rootPath trashPath base) = true ∧
      p = pyNormpath (pyJoin (physicalRoot rootPath trashPath base)
            (lstripSlashes logicalPath)))
    ∧ (get_physical_path rootPath trashPath base logicalPath
        = Except.error (PyErr.badRequest "Path traversal detected.")
      ↔ pyStartsWith
          (pyNormpath (pyJoin (physicalRoot rootPath trashPath base)
            (lstripSlashes logicalPath)))
          (physicalRoot rootPath trashPath base) = false) := by
  unfold get_physical_path getPhysicalPathFrom
  by_cases h : pyStartsWith
      (pyNormpath (pyJoin (physicalRoot rootPath trashPath base)
        (lstripSlashes logicalPath)))
      (physicalRoot rootPath trashPath base)
  · simp only [h, Bool.not_true, Bool.false_eq_true, if_false]
    refine ⟨?_, ?_⟩
    · intro p hp
      cases hp
      exact ⟨h, rfl⟩
    · simp [h]
  · simp only [Bool.not_eq_true] at h
    simp [h]

/-- C1 witness: the amended theorem applied at root `/a`, logical path
`b`. -/
theorem c1_physical_path_string_check_witness :
    pyStartsWith "/a/b" (physicalRoot "/a" "/t" DriverBase.regular) = true ∧
    "/a/b" = pyNormpath (pyJoin (physicalRoot "/a" "/t" DriverBase.regular)
      (lstripSlashes "b")) :=
  (c1_physical_path_string_check "/a" "/t" DriverBase.regular "b").1 "/a/b" rfl

/-! ### `StorageService` mount resolution
(`infra/services/storage_service.py`) -/

/-- Backend types with implemented drivers (`StorageType.LOCAL` / `S3`). -/
inductive StorageType
  | local
  | s3
deriving DecidableEq, Repr

/-- A storage mount (`domain/entities/storage.py`). The backend-specific
`config` dict is abstracted to the two `LocalConfig` fields the embedded
code reads (`root_path`, `trash_path`), and timestamps to `Nat`. -/
structure Storage where
  storageId : Nat
  mountPath : String
  type : StorageType
  rootPath : String
  trashPath : String
  enabled : Bool
  createdAt : Nat
  updatedAt : Nat
deriving DecidableEq, Repr

/-- The candidate-path cleaning of `StorageService._match_storage`:
ensure a leading `/`, then strip trailing slashes unless the path is
exactly `/`. -/
def cleanCandidate (path : String) : String :=
  let p := if !pyStartsWith path "/" then "/" ++ path else path
  if p ≠ "/" then rstripSlash p else p

/-- Mount-path cleaning of `_match_storage`. -/
def cleanMount (mountPath : String) : String :=
  if mountPath ≠ "/" then rstripSlash mountPath else mountPath

/-- The per-mount match test of `_match_storage`: root always matches;
otherwise exact match or directory-boundary prefix match. -/
def storageMatches (cleanPath mountPath : String) : Bool :=
  let cm := cleanMount mountPath
  cm = "/" || cleanPath = cm || pyStartsWith cleanPath (cm ++ "/")

/-- Python's `max(matches, key=len(mount_path))`: scan keeping the current
maximum, replacing it only on a strictly greater key (so the first of the
longest wins, as in CPython). -/
def pickLongest (cur : Storage) : List Storage → Storage
  | [] => cur
  | x :: xs =>
    pickLongest (if x.mountPath.length > cur.mountPath.length then x else cur) xs

/-- `StorageService._match_storage`: the cache is the insertion-ordered
`mount_path → storage` dict, modelled as an association list. -/
def match_storage (cache : List (String × Storage)) (path : String) :
    Option Storage :=
  match (cache.filter
      (fun kv => storageMatches (cleanCandidate path) kv.1)).map Prod.snd with
  | [] => none
  | m :: ms => some (pickLongest m ms)

/-- The fallback local storage of `StorageService.get_driver` (mounted at
`/`, rooted at `<cwd>/webdav`). -/
def defaultLocalStorage (cwd : String) : Storage :=
  { storageId := 0, mountPath := "/", type := StorageType.local,
    rootPath := pyJoin cwd "webdav",
    trashPath := pyJoin (pyJoin cwd "webdav") ".Trash",
    enabled := true, createdAt := 0, updatedAt := 0 }

/-- The storage `StorageService.get_driver` builds its driver from:
the matched mount, or the fallback local storage when nothing matches. -/
def get_driver_storage (cache : List (String × Storage)) (cwd path : String) :
    Storage :=
  (match_storage cache path).getD (defaultLocalStorage cwd)

theorem pickLongest_mem (xs : List Storage) :
    ∀ cur, pickLongest cur xs = cur ∨ pickLongest cur xs ∈ xs := by
  induction xs with
  | nil => intro cur; exact Or.inl rfl
  | cons x xs ih =>
    intro cur
    simp only [pickLongest]
    rcases ih (if x.mountPath.length > cur.mountPath.length then x else cur) with h | h
    · rw [h]
      split
      · exact Or.inr (List.mem_cons_self _ _)
      · exact Or.inl rfl
    · exact Or.inr (List.mem_cons_of_mem _ h)

theorem pickLongest_ge (xs : List Storage) :
    ∀ cur, cur.mountPath.length ≤ (pickLongest cur xs).mountPath.length ∧
      ∀ x ∈ xs, x.mountPath.length ≤ (pickLongest cur xs).mountPath.length := by
  induction xs with
  | nil =>
    intro cur
    exact ⟨le_refl _, by simp⟩
  | cons y ys ih =>
    intro cur
    simp only [pickLongest]
    obtain ⟨h1, h2⟩ := ih (if y.mountPath.length > cur.mountPath.length then y else cur)
    refine ⟨le_trans ?_ h1, ?_⟩
    · split
      · omega
      · exact le_refl _
    · intro x hx
      rcases List.mem_cons.mp hx with rfl | hx
      · refine le_trans ?_ h1
        split
        · exact le_refl _
        · omega
      · exact h2 x hx

/-- C2: mount resolution returns a storage some cache entry maps to that
matches the path under the `_match_storage` predicate (root mount always
matches, otherwise exact or `mountPath + "/"` boundary match), and whose
mount-path string length is maximal among all matching entries; when no
entry matches, resolution is `none` and `get_driver` falls back to the
default local storage at `/`; and appending or removing a cache entry
whose mount path does not match the path leaves resolution unchanged. -/
theorem c2_longest_mount_match (cache : List (String × Storage))
    (path cwd : String) :
    (∀ s, match_storage cache path = some s →
      (∃ k, (k, s) ∈ cache ∧ storageMatches (cleanCandidate path) k = true) ∧
      ∀ kv ∈ cache, storageMatches (cleanCandidate path) kv.1 = true →
        kv.2.mountPath.length ≤ s.mountPath.length)
    ∧ (match_storage cache path = none ↔
        ∀ kv ∈ cache, storageMatches (cleanCandidate path) kv.1 = false)
    ∧ (match_storage cache path = none →
        get_driver_storage cache cwd path = defaultLocalStorage cwd)
    ∧ (∀ k s, storageMatches (cleanCandidate path) k = false →
        match_storage (cache ++ [(k, s)]) path = match_storage cache path ∧
        match_storage (cache.filter (fun kv => kv.1 != k)) path
          = match_storage cache path) := by
  refine ⟨?_, ?_, ?_, ?_⟩
  · intro s hs
    unfold match_storage at hs
    rcases hM : (cache.filter
        (fun kv => storageMatches (cleanCandidate path) kv.1)).map Prod.snd with
      _ | ⟨m, ms⟩
    · rw [hM] at hs
      simp at hs
    · rw [hM] at hs
      have hsp : s = pickLongest m ms := by
        simpa using hs.symm
      constructor
      · have hmem : s ∈ (cache.filter
            (fun kv => storageMatches (cleanCandidate path) kv.1)).map Prod.snd := by
          rw [hM]
          rcases pickLongest_mem ms m with h | h
          · rw [hsp, h]; exact List.mem_cons_self _ _
          · rw [hsp]; exact List.mem_cons_of_mem _ h
        obtain ⟨kv, hkv, hkv2⟩ := List.mem_map.mp hmem
        have hkv' := List.mem_filter.mp hkv
        refine ⟨kv.1, ?_, by simpa using hkv'.2⟩
        have : kv = (kv.1, s) := by
          rw [← hkv2]
        rw [← this]
        exact hkv'.1
      · intro kv hkv hmatch
        have hmem : kv.2 ∈ (cache.filter
            (fun kv => storageMatches (cleanCandidate path) kv.1)).map Prod.snd :=
          List.mem_map.mpr ⟨kv, List.mem_filter.mpr ⟨hkv, by simpa using hmatch⟩, rfl⟩
        rw [hM] at hmem
        obtain ⟨h1, h2⟩ := pickLongest_ge ms m
        rw [hsp]
        rcases List.mem_cons.mp hmem with h | h
        · rw [h]
          exact h1
        · exact h2 _ h
  · unfold match_storage
    rcases hM : (cache.filter
        (fun kv => storageMatches (cleanCandidate path) kv.1)).map Prod.snd with
      _ | ⟨m, ms⟩
    · simp only [hM]
      have hf : cache.filter (fun kv => storageMatches (cleanCandidate path) kv.1) = [] :=
        List.map_eq_nil.mp hM
      simp only [true_iff]
      intro kv hkv
      by_contra hne
      have : kv ∈ cache.filter (fun kv => storageMatches (cleanCandidate path) kv.1) :=
        List.mem_filter.mpr ⟨hkv, by simpa using hne⟩
      rw [hf] at this
      exact absurd this (List.not_mem_nil _)
    · simp only [hM]
      constructor
      · intro h
        exact absurd h (by simp)
      · intro hall
        exfalso
        have hf : cache.filter (fun kv => storageMatches (cleanCandidate path) kv.1) = [] := by
          apply List.filter_eq_nil.mpr
          intro kv hkv
          simp [hall kv hkv]
        rw [hf] at hM
        exact absurd hM (by simp)
  · intro h
    unfold get_driver_storage
    rw [h]
    rfl
  · intro k s hk
    have hfilter : ∀ l : List (String × Storage),
        (l.filter (fun kv => kv.1 != k)).filter
          (fun kv => storageMatches (cleanCandidate path) kv.1)
        = l.filter (fun kv => storageMatches (cleanCandidate path) kv.1) := by
      intro l
      induction l with
      | nil => rfl
      | cons kv l ih =>
        by_cases hkv : kv.1 = k
        · have hm : storageMatches (cleanCandidate path) kv.1 = false := by
            rw [hkv]; exact hk
          simp only [List.filter_cons, hkv, bne_self_eq_false, Bool.false_eq_true,
            if_false, ih, hm, hk]
        · have hb : (kv.1 != k) = true := by
            simpa using hkv
          simp only [List.filter_cons, hb, if_true, ih]
    constructor
    · unfold match_storage
      rw [List.filter_append]
      have : [(k, s)].filter (fun kv => storageMatches (cleanCandidate path) kv.1) = [] := by
        simp [hk]
      rw [this, List.append_nil]
    · unfold match_storage
      rw [hfilter cache]

/-- A concrete local root mount used to witness C2. -/
def c2LocalStorage : Storage :=
  { storageId := 1, mountPath := "/", type := StorageType.local,
    rootPath := "/srv/data", trashPath := "/srv/data/.trash",
    enabled := true, createdAt := 0, updatedAt := 0 }

/-- A concrete object-store mount used to witness C2. -/
def c2S3Storage : Storage :=
  { storageId := 2, mountPath := "/s3", type := StorageType.s3,
    rootPath := "", trashPath := "",
    enabled := true, createdAt := 0, updatedAt := 0 }

/-- The concrete mount cache used to witness C2. -/
def c2Cache : List (String × Storage) := [("/", c2LocalStorage), ("/s3", c2S3Storage)]

/-- C2 witness: on the cache `{/: local, /s3: s3}`, resolving `/s3/etc`
yields the `/s3` mount, which matches and is longest. -/
theorem c2_longest_mount_match_witness :
    (∃ k, (k, c2S3Storage) ∈ c2Cache ∧
      storageMatches (cleanCandidate "/s3/etc") k = true) ∧
    ∀ kv ∈ c2Cache, storageMatches (cleanCandidate "/s3/etc") kv.1 = true →
      kv.2.mountPath.length ≤ c2S3Storage.mountPath.length :=
  (c2_longest_mount_match c2Cache "/s3/etc" "/cwd").1 c2S3Storage (by decide)

/-! ### Trash containment check
(`TaskWorker._ensure_inside_trash` in `infra/services/task_worker.py`,
duplicated as `_ensure_inside_trash` in `apis/trash.py`) -/

/-- `_ensure_inside_trash`: normalize the trash root, join and normalize
the entry name under it, and require `commonpath([root, candidate])` to be
the root itself; otherwise raise `BadRequest("Invalid entry path.")`. -/
def ensure_inside_trash (trashRoot entryName : String) : Except PyErr String :=
  match pyCommonpath2 (pyNormpath trashRoot)
      (pyNormpath (pyJoin (pyNormpath trashRoot) entryName)) with
  | Except.error e => Except.error e
  | Except.ok c =>
    if c ≠ pyNormpath trashRoot then Except.error (PyErr.badRequest "Invalid entry path.")
    else Except.ok (pyNormpath (pyJoin (pyNormpath trashRoot) entryName))

theorem toList_append (a b : String) : (a ++ b).toList = a.toList ++ b.toList :=
  String.data_append a b

theorem mk_toList (s : String) : String.mk s.toList = s := rfl

theorem splitSlashAux_no_slash (cs : List Char) :
    ∀ acc, '/' ∉ acc → ∀ x ∈ splitSlashAux cs acc, '/' ∉ x.toList := by
  induction cs with
  | nil =>
    intro acc hacc x hx
    simp only [splitSlashAux, List.mem_singleton] at hx
    subst hx
    simpa using fun h => hacc (List.mem_reverse.mp h)
  | cons c cs ih =>
    intro acc hacc x hx
    simp only [splitSlashAux] at hx
    by_cases hc : c = '/'
    · rw [if_pos hc] at hx
      rcases List.mem_cons.mp hx with rfl | hx
      · simpa using fun h => hacc (List.mem_reverse.mp h)
      · exact ih [] (by simp) x hx
    · rw [if_neg hc] at hx
      refine ih (c :: acc) ?_ x hx
      intro h
      rcases List.mem_cons.mp h with h | h
      · exact hc h.symm
      · exact hacc h

theorem splitSlash_no_slash (s : String) : ∀ x ∈ splitSlash s, '/' ∉ x.toList :=
  splitSlashAux_no_slash s.toList [] (by simp)

/-- A string suitable as a single path component. -/
def goodComp (x : String) : Prop := x ≠ "" ∧ x ≠ "." ∧ '/' ∉ x.toList

theorem pathComps_good (s : String) : ∀ x ∈ pathComps s, goodComp x := by
  intro x hx
  unfold pathComps at hx
  have h1 := List.mem_filter.mp hx
  have h2 := splitSlash_no_slash s x h1.1
  have h3 := h1.2
  simp only [Bool.and_eq_true, decide_eq_true_eq] at h3
  exact ⟨h3.1, h3.2, h2⟩

theorem splitSlashAux_single (cs : List Char) :
    ∀ acc, '/' ∉ cs → splitSlashAux cs acc = [String.mk (acc.reverse ++ cs)] := by
  induction cs with
  | nil => intro acc _; simp [splitSlashAux]
  | cons c cs ih =>
    intro acc hcs
    have hc : c ≠ '/' := fun h => hcs (h ▸ List.mem_cons_self c cs)
    simp only [splitSlashAux, if_neg (fun h => hc h)]
    rw [ih (c :: acc) (fun h => hcs (List.mem_cons_of_mem c h))]
    simp

theorem splitSlashAux_sep (cs₁ : List Char) :
    ∀ acc cs₂, '/' ∉ cs₁ →
      splitSlashAux (cs₁ ++ '/' :: cs₂) acc
        = String.mk (acc.reverse ++ cs₁) :: splitSlashAux cs₂ [] := by
  induction cs₁ with
  | nil =>
    intro acc cs₂ _
    simp [splitSlashAux]
  | cons c cs ih =>
    intro acc cs₂ hcs
    have hc : c ≠ '/' := fun h => hcs (h ▸ List.mem_cons_self c cs)
    simp only [List.cons_append, splitSlashAux, if_neg (fun h => hc h)]
    show splitSlashAux (cs ++ '/' :: cs₂) (c :: acc) = _
    rw [ih (c :: acc) cs₂ (fun h => hcs (List.mem_cons_of_mem c h))]
    simp

theorem splitSlash_intercal (L : List String) (hne : L ≠ [])
    (hns : ∀ x ∈ L, '/' ∉ x.toList) : splitSlash (intercal "/" L) = L := by
  induction L with
  | nil => exact absurd rfl hne
  | cons x xs ih =>
    rcases xs with _ | ⟨y, ys⟩
    · show splitSlashAux (intercal "/" [x]).toList [] = [x]
      have : intercal "/" [x] = x := rfl
      rw [this, splitSlashAux_single x.toList [] (hns x (List.mem_singleton.mpr rfl))]
      simp
    · show splitSlashAux (intercal "/" (x :: y :: ys)).toList [] = x :: y :: ys
      have hi : intercal "/" (x :: y :: ys) = x ++ "/" ++ intercal "/" (y :: ys) := rfl
      have htl : (x ++ "/" ++ intercal "/" (y :: ys)).toList
          = x.toList ++ '/' :: (intercal "/" (y :: ys)).toList := by
        rw [toList_append, toList_append]
        rw [show "/".toList = ['/'] from rfl, List.append_assoc]
        rfl
      rw [hi, htl, splitSlashAux_sep x.toList [] _ (hns x (List.mem_cons_self _ _))]
      have := ih (by simp) (fun z hz => hns z (List.mem_cons_of_mem x hz))
      show String.mk ([].reverse ++ x.toList) :: splitSlashAux (intercal "/" (y :: ys)).toList [] = _
      rw [show ([] : List Char).reverse ++ x.toList = x.toList by simp, mk_toList]
      exact congrArg (x :: ·) this

theorem intercal_ne_nil (L : List String) (h0 : ∀ x ∈ L, x ≠ "")
    (hL : L ≠ []) : intercal "/" L ≠ "" := by
  rcases L with _ | ⟨x, xs⟩
  · exact absurd rfl hL
  · rcases xs with _ | ⟨y, ys⟩
    · exact h0 x (List.mem_singleton.mpr rfl)
    · intro h
      have : (x ++ "/" ++ intercal "/" (y :: ys)).toList = [] := by
        rw [show intercal "/" (x :: y :: ys) = x ++ "/" ++ intercal "/" (y :: ys) from rfl] at h
        rw [h]
        rfl
      rw [toList_append, toList_append] at this
      rcases List.append_eq_nil.mp this with ⟨h1, _⟩
      rcases List.append_eq_nil.mp h1 with ⟨_, h3⟩
      exact absurd h3 (by simp [String.toList])

/-- Character-list form of `pathComps`. -/
def pathCompsL (cs : List Char) : List String :=
  (splitSlashAux cs []).filter (fun c => c ≠ "" && c ≠ ".")

theorem pathComps_eq_L (s : String) : pathComps s = pathCompsL s.toList := rfl

theorem filter_good_self (L : List String) (hg : ∀ x ∈ L, goodComp x) :
    L.filter (fun c => c ≠ "" && c ≠ ".") = L := by
  apply List.filter_eq_self.mpr
  intro x hx
  obtain ⟨h1, h2, _⟩ := hg x hx
  simp [h1, h2]

theorem pathCompsL_replicate_intercal (n : Nat) :
    ∀ L : List String, (∀ x ∈ L, goodComp x) →
      pathCompsL (List.replicate n '/' ++ (intercal "/" L).toList) = L := by
  induction n with
  | zero =>
    intro L hg
    rw [List.replicate_zero, List.nil_append]
    rcases hL : L with _ | ⟨x, xs⟩
    · show pathCompsL "".toList = []
      rfl
    · rw [← hL]
      show (splitSlashAux (intercal "/" L).toList []).filter _ = L
      have hs : splitSlashAux (intercal "/" L).toList [] = L := by
        have := splitSlash_intercal L (by rw [hL]; simp)
          (fun x hx => (hg x hx).2.2)
        exact this
      rw [hs]
      exact filter_good_self L hg
  | succ n ih =>
    intro L hg
    rw [List.replicate_succ, List.cons_append]
    show (splitSlashAux ('/' :: (List.replicate n '/' ++ (intercal "/" L).toList)) []).filter _ = L
    rw [show splitSlashAux ('/' :: (List.replicate n '/' ++ (intercal "/" L).toList)) []
        = String.mk [] :: splitSlashAux (List.replicate n '/' ++ (intercal "/" L).toList) []
      from by simp [splitSlashAux]]
    rw [List.filter_cons]
    simp only [show ((String.mk [] ≠ "" && String.mk [] ≠ ".") = false) from rfl,
      Bool.false_eq_true, if_false]
    exact ih L hg

theorem lcp_mem {α : Type} [DecidableEq α] (a b : List α) :
    ∀ x ∈ lcp a b, x ∈ a := by
  induction a generalizing b with
  | nil => intro x hx; simp [lcp] at hx
  | cons c cs ih =>
    intro x hx
    rcases b with _ | ⟨d, ds⟩
    · simp [lcp] at hx
    · simp only [lcp] at hx
      by_cases hcd : c = d
      · rw [if_pos hcd] at hx
        rcases List.mem_cons.mp hx with rfl | hx
        · exact List.mem_cons_self _ _
        · exact List.mem_cons_of_mem _ (ih ds x hx)
      · rw [if_neg hcd] at hx
        simp at hx

theorem lcp_isPre {α : Type} [DecidableEq α] (a : List α) :
    ∀ b, lcp a b <+: b := by
  induction a with
  | nil => intro b; exact ⟨b, by simp [lcp]⟩
  | cons c cs ih =>
    intro b
    rcases b with _ | ⟨d, ds⟩
    · exact ⟨[], by simp [lcp]⟩
    · simp only [lcp]
      by_cases hcd : c = d
      · rw [if_pos hcd]
        obtain ⟨t, ht⟩ := ih ds
        exact ⟨t, by rw [hcd, List.cons_append, ht]⟩
      · rw [if_neg hcd]
        exact ⟨d :: ds, rfl⟩

theorem normAux_good (isAbs : Bool) :
    ∀ comps acc, (∀ x ∈ acc, goodComp x) → (∀ x ∈ comps, '/' ∉ x.toList) →
      ∀ x ∈ normAux isAbs acc comps, goodComp x := by
  intro comps
  induction comps with
  | nil =>
    intro acc hacc _ x hx
    simp only [normAux] at hx
    exact hacc x (List.mem_reverse.mp hx)
  | cons c cs ih =>
    intro acc hacc hcs x hx
    simp only [normAux] at hx
    by_cases h1 : c = "" ∨ c = "."
    · rw [if_pos (by simpa using h1)] at hx
      exact ih acc hacc (fun z hz => hcs z (List.mem_cons_of_mem c hz)) x hx
    · rw [if_neg (by simpa using h1)] at hx
      push_neg at h1
      split at hx
      · refine ih (c :: acc) ?_ (fun z hz => hcs z (List.mem_cons_of_mem c hz)) x hx
        intro z hz
        rcases List.mem_cons.mp hz with rfl | hz
        · exact ⟨h1.1, h1.2, hcs z (List.mem_cons_self _ _)⟩
        · exact hacc z hz
      · refine ih acc.tail ?_ (fun z hz => hcs z (List.mem_cons_of_mem c hz)) x hx
        intro z hz
        exact hacc z (List.mem_of_mem_tail hz)

theorem normComps_good (p : String) : ∀ x ∈ normComps p, goodComp x :=
  normAux_good _ _ [] (by simp) (splitSlash_no_slash p)

theorem normpath_comps (p : String) : pathComps (pyNormpath p) = normComps p := by
  unfold pyNormpath
  by_cases hp : p = ""
  · subst hp
    rw [if_pos rfl]
    decide
  · rw [if_neg hp]
    by_cases hj : String.mk (List.replicate (leadSlashes p) '/') ++ intercal "/" (normComps p) = ""
    · rw [if_pos hj]
      have h2 := congrArg String.toList hj
      rw [toList_append] at h2
      have h3 : List.replicate (leadSlashes p) '/' ++ (intercal "/" (normComps p)).toList
          = [] := h2
      rcases List.append_eq_nil.mp h3 with ⟨h4, h5⟩
      have hs0 : leadSlashes p = 0 := by
        rcases Nat.eq_zero_or_pos (leadSlashes p) with h | h
        · exact h
        · exfalso
          rw [List.eq_nil_iff_forall_not_mem] at h4
          exact h4 '/' (List.mem_replicate.mpr ⟨Nat.pos_iff_ne_zero.mp h, rfl⟩)
      have hnil : normComps p = [] := by
        by_contra h
        refine intercal_ne_nil (normComps p) (fun x hx => (normComps_good p x hx).1) h ?_
        apply String.ext
        exact h5
      rw [hnil]
      decide
    · rw [if_neg hj]
      rw [pathComps_eq_L]
      have ht : (String.mk (List.replicate (leadSlashes p) '/') ++ intercal "/" (normComps p)).toList
          = List.replicate (leadSlashes p) '/' ++ (intercal "/" (normComps p)).toList := by
        rw [toList_append]
        rfl
      rw [ht]
      exact pathCompsL_replicate_intercal (leadSlashes p) (normComps p) (normComps_good p)

theorem startsWith_slash_iff (s : String) :
    pyStartsWith s "/" = true ↔ ∃ cs, s.toList = '/' :: cs := by
  unfold pyStartsWith
  rw [show ("/" : String).toList = ['/'] from rfl]
  generalize s.toList = l
  rcases l with _ | ⟨c, cs⟩
  · simp [listIsPre]
  · simp only [listIsPre, Bool.and_eq_true, decide_eq_true_eq]
    constructor
    · rintro ⟨h1, -⟩
      exact ⟨cs, by rw [h1]⟩
    · rintro ⟨cs', hcs⟩
      injection hcs with h1 h2
      exact ⟨h1.symm, by simp [listIsPre]⟩

theorem normpath_abs (p : String) (h : pyStartsWith p "/" = true) :
    pyStartsWith (pyNormpath p) "/" = true := by
  obtain ⟨cs, hcs⟩ := (startsWith_slash_iff p).mp h
  have hp : p ≠ "" := by
    intro he
    rw [he] at hcs
    exact absurd hcs (by simp)
  have hlead : leadSlashes p ≠ 0 := by
    unfold leadSlashes
    by_cases hc : (pyStartsWith p "//" && !pyStartsWith p "///") = true
    · rw [if_pos hc]
      simp
    · rw [if_neg hc, if_pos h]
      simp
  obtain ⟨n, hn⟩ : ∃ n, leadSlashes p = n + 1 :=
    ⟨leadSlashes p - 1, by omega⟩
  have hjoin_list : (String.mk (List.replicate (leadSlashes p) '/')
      ++ intercal "/" (normComps p)).toList
      = '/' :: (List.replicate n '/' ++ (intercal "/" (normComps p)).toList) := by
    rw [toList_append, hn]
    rw [show (String.mk (List.replicate (n + 1) '/')).toList
        = List.replicate (n + 1) '/' from rfl]
    rw [List.replicate_succ, List.cons_append]
  have hne : String.mk (List.replicate (leadSlashes p) '/')
      ++ intercal "/" (normComps p) ≠ "" := by
    intro he
    have := congrArg String.toList he
    rw [hjoin_list] at this
    exact absurd this (by simp)
  unfold pyNormpath
  rw [if_neg hp, if_neg hne]
  exact (startsWith_slash_iff _).mpr ⟨_, hjoin_list⟩

theorem join_abs (a b : String) (h : pyStartsWith a "/" = true) :
    pyStartsWith (pyJoin a b) "/" = true := by
  obtain ⟨cs, hcs⟩ := (startsWith_slash_iff a).mp h
  unfold pyJoin
  by_cases hb : pyStartsWith b "/" = true
  · rw [if_pos hb]
    exact hb
  · rw [if_neg hb]
    split
    · refine (startsWith_slash_iff _).mpr ⟨cs ++ b.toList, ?_⟩
      rw [toList_append, hcs, List.cons_append]
    · refine (startsWith_slash_iff _).mpr ⟨cs ++ "/".toList ++ b.toList, ?_⟩
      rw [toList_append, toList_append, hcs]
      simp [List.append_assoc]

theorem pathComps_abs_intercal (b : Bool) (L : List String)
    (hg : ∀ x ∈ L, goodComp x) :
    pathComps ((if b then "/" else "") ++ intercal "/" L) = L := by
  rcases b with _ | _
  · rw [if_neg (by simp)]
    rw [pathComps_eq_L]
    have : (("" : String) ++ intercal "/" L).toList
        = List.replicate 0 '/' ++ (intercal "/" L).toList := by
      rw [toList_append]
      rfl
    rw [this]
    exact pathCompsL_replicate_intercal 0 L hg
  · rw [if_pos rfl]
    rw [pathComps_eq_L]
    have : (("/" : String) ++ intercal "/" L).toList
        = List.replicate 1 '/' ++ (intercal "/" L).toList := by
      rw [toList_append]
      rfl
    rw [this]
    exact pathCompsL_replicate_intercal 1 L hg

/-- C10: every entry name accepted by `_ensure_inside_trash` resolves, after
joining under the (normalized) trash root and normalizing, to a path whose
components extend the trash root's components — i.e. the common prefix of
root and candidate is the root itself, so the path stays inside the trash
root (also for entry names containing `..` segments); and for an absolute
trash root every rejection is the `BadRequest` "Invalid entry path.",
raised before any filesystem access. -/
theorem c10_ensure_inside_trash_sound (trashRoot entryName : String) :
    (∀ cand, ensure_inside_trash trashRoot entryName = Except.ok cand →
      cand = pyNormpath (pyJoin (pyNormpath trashRoot) entryName) ∧
      pathComps (pyNormpath trashRoot) <+: pathComps cand)
    ∧ (pyStartsWith trashRoot "/" = true →
      ∀ e, ensure_inside_trash trashRoot entryName = Except.error e →
        e = PyErr.badRequest "Invalid entry path.") := by
  cases hcp : pyCommonpath2 (pyNormpath trashRoot)
      (pyNormpath (pyJoin (pyNormpath trashRoot) entryName)) with
  | error e0 =>
    constructor
    · intro cand hc
      unfold ensure_inside_trash at hc
      rw [hcp] at hc
      exact absurd hc (by simp)
    · intro habs0 e he
      exfalso
      unfold pyCommonpath2 at hcp
      have h1 : pyStartsWith (pyNormpath trashRoot) "/" = true := normpath_abs _ habs0
      have h2 : pyStartsWith (pyNormpath (pyJoin (pyNormpath trashRoot) entryName)) "/" = true :=
        normpath_abs _ (join_abs _ _ h1)
      rw [if_neg (by rw [h1, h2]; simp)] at hcp
      exact absurd hcp (by simp)
  | ok c =>
    have hcdef : (if pyStartsWith (pyNormpath trashRoot) "/" then "/" else "")
        ++ intercal "/" (lcp (pathComps (pyNormpath trashRoot))
          (pathComps (pyNormpath (pyJoin (pyNormpath trashRoot) entryName)))) = c := by
      unfold pyCommonpath2 at hcp
      by_cases habs : ¬ (pyStartsWith (pyNormpath trashRoot) "/"
          = pyStartsWith (pyNormpath (pyJoin (pyNormpath trashRoot) entryName)) "/")
      · rw [if_pos (by simpa using habs)] at hcp
        exact absurd hcp (by simp)
      · rw [if_neg (by simpa using habs)] at hcp
        injection hcp
    constructor
    · intro cand hc
      unfold ensure_inside_trash at hc
      rw [hcp] at hc
      have hc' : (if c ≠ pyNormpath trashRoot
          then Except.error (PyErr.badRequest "Invalid entry path.")
          else Except.ok (pyNormpath (pyJoin (pyNormpath trashRoot) entryName)))
          = Except.ok cand := hc
      by_cases hcr : c ≠ pyNormpath trashRoot
      · rw [if_pos hcr] at hc'
        exact absurd hc' (by simp)
      · rw [if_neg hcr] at hc'
        push_neg at hcr
        injection hc' with hc'
        subst hc'
        refine ⟨rfl, ?_⟩
        have hgood : ∀ x ∈ lcp (pathComps (pyNormpath trashRoot))
            (pathComps (pyNormpath (pyJoin (pyNormpath trashRoot) entryName))), goodComp x :=
          fun x hx => pathComps_good _ x (lcp_mem _ _ x hx)
        have hround := pathComps_abs_intercal
          (pyStartsWith (pyNormpath trashRoot) "/")
          (lcp (pathComps (pyNormpath trashRoot))
            (pathComps (pyNormpath (pyJoin (pyNormpath trashRoot) entryName)))) hgood
        have hlcp : lcp (pathComps (pyNormpath trashRoot))
            (pathComps (pyNormpath (pyJoin (pyNormpath trashRoot) entryName)))
            = pathComps (pyNormpath trashRoot) := by
          rw [← hround, hcdef, hcr]
        rw [← hlcp]
        exact lcp_isPre _ _
    · intro _ e he
      unfold ensure_inside_trash at he
      rw [hcp] at he
      have he' : (if c ≠ pyNormpath trashRoot
          then Except.error (PyErr.badRequest "Invalid entry path.")
          else Except.ok (pyNormpath (pyJoin (pyNormpath trashRoot) entryName)))
          = Except.error e := he
      by_cases hcr : c ≠ pyNormpath trashRoot
      · rw [if_pos hcr] at he'
        injection he' with he'
        exact he'.symm
      · rw [if_neg hcr] at he'
        exact absurd he' (by simp)

/-- C10 witness: the theorem applied at trash root `/t` and entry name
`a.txt` (accepted, resolving to `/t/a.txt`), and at entry name `../x`
(rejected with `BadRequest`). -/
theorem c10_ensure_inside_trash_sound_witness :
    ("/t/a.txt" = pyNormpath (pyJoin (pyNormpath "/t") "a.txt") ∧
      pathComps (pyNormpath "/t") <+: pathComps "/t/a.txt") ∧
    PyErr.badRequest "Invalid entry path." = PyErr.badRequest "Invalid entry path." :=
  ⟨(c10_ensure_inside_trash_sound "/t" "a.txt").1 "/t/a.txt" rfl,
   (c10_ensure_inside_trash_sound "/t" "../x").2 (by decide)
     (PyErr.badRequest "Invalid entry path.") rfl⟩

/-! ### Trash naming and the trash ledger
(`TaskWorker._get_unique_entry_name` / `_trash_single_file` in
`infra/services/task_worker.py`) -/

/-- Modelled from the spec: `TrashRepository.find_by_entry_name`, called by
`_get_unique_entry_name`, is absent from the source tree (the repository
file defines only `get_by_entry_name`-style lookups with a different
constructor signature than the worker uses). Per §6 of the spec the trash
repository exposes `getByEntryName`: the lookup of the ledger record
carrying the given unique physical entry name. The ledger is modelled by
the list of its entry names. -/
def find_by_entry_name (ledgerNames : List String) (name : String) : Option String :=
  ledgerNames.find? (fun n => n = name)

/-- The conflict candidate `f"{name}({counter}){ext}"` of
`_get_unique_entry_name`, splitting the desired name with
`os.path.splitext`. -/
def candidateName (desired : String) (k : Nat) : String :=
  (pySplitext desired).1 ++ "(" ++ toString k ++ ")" ++ (pySplitext desired).2

/-- A name is taken when it exists on disk under the trash root
(`os.path.exists(os.path.join(trash_root, name))`, the trash-root
directory being modelled by the list of entry names it contains) or has a
ledger record. -/
def entryTaken (diskNames ledgerNames : List String) (name : String) : Bool :=
  diskNames.contains name || (find_by_entry_name ledgerNames name).isSome

/-- The `while True` counter loop of `_get_unique_entry_name`, embedded
with explicit fuel (the loop terminates once the counter escapes the
finitely many taken names; a fuel of `|disk| + |ledger| + 1` is passed by
`get_unique_entry_name`). -/
def findUniqueLoop (diskNames ledgerNames : List String) (desired : String) :
    Nat → Nat → Option String
  | _, 0 => none
  | counter, fuel + 1 =>
    if !entryTaken diskNames ledgerNames (candidateName desired counter) then
      some (candidateName desired counter)
    else findUniqueLoop diskNames ledgerNames desired (counter + 1) fuel

/-- `TaskWorker._get_unique_entry_name`: return the desired name if it is
free both on disk and in the ledger, otherwise the first
`name(1).ext, name(2).ext, …` candidate free on both. -/
def get_unique_entry_name (diskNames ledgerNames : List String)
    (desired : String) : Option String :=
  if !diskNames.contains desired then
    if (find_by_entry_name ledgerNames desired).isNone then some desired
    else findUniqueLoop diskNames ledgerNames desired 1
      (diskNames.length + ledgerNames.length + 1)
  else findUniqueLoop diskNames ledgerNames desired 1
    (diskNames.length + ledgerNames.length + 1)

/-- A persisted trash-ledger record (`domain/entities/trash.py`, the three
fields the worker writes besides the deletion timestamp). -/
structure TrashRec where
  userId : Nat
  entryName : String
  originalPath : String
deriving DecidableEq, Repr

/-- The trash root's observable state: entry names physically present
under it, and the ledger records. -/
structure TrashState where
  diskNames : List String
  ledger : List TrashRec
deriving DecidableEq, Repr

/-- `TaskWorker._trash_single_file` for a source that passes
`_validate_path` and is a regular file (the `os.path.isfile` branch of
`_collect_all_entries`, which then yields the single entry
`(relpath(src_path, normpath(base_dir)), src_path)`): compute the unique
entry name, append the ledger record (`create_batch`, modelled from the
spec's `createBatch` as the repository method is absent from the source
tree), and move the file under the trash root. `none` models exhaustion of
the embedded counter fuel, which the loop's minimality makes unreachable
for these list sizes. -/
def trash_single_file (userId : Nat) (srcDir fileName : String)
    (st : TrashState) : Option TrashState :=
  match get_unique_entry_name st.diskNames (st.ledger.map (fun r => r.entryName))
      (pyRelpath (pyJoin srcDir fileName) (pyNormpath srcDir)) with
  | none => none
  | some unique =>
    some { diskNames := st.diskNames ++ [unique],
           ledger := st.ledger ++
             [{ userId := userId, entryName := unique,
                originalPath := pyJoin srcDir fileName }] }

theorem findUniqueLoop_spec (diskNames ledgerNames : List String)
    (desired : String) :
    ∀ fuel counter s,
      findUniqueLoop diskNames ledgerNames desired counter fuel = some s →
      entryTaken diskNames ledgerNames s = false ∧
      ∃ k, counter ≤ k ∧ s = candidateName desired k ∧
        ∀ j, counter ≤ j → j < k →
          entryTaken diskNames ledgerNames (candidateName desired j) = true := by
  intro fuel
  induction fuel with
  | zero =>
    intro counter s h
    exact absurd h (by simp [findUniqueLoop])
  | succ fuel ih =>
    intro counter s h
    simp only [findUniqueLoop] at h
    by_cases ht : entryTaken diskNames ledgerNames (candidateName desired counter) = true
    · rw [if_neg (by simp [ht])] at h
      obtain ⟨h1, k, hk1, hk2, hk3⟩ := ih (counter + 1) s h
      refine ⟨h1, k, by omega, hk2, ?_⟩
      intro j hj1 hj2
      rcases Nat.eq_or_lt_of_le hj1 with rfl | hj1
      · exact ht
      · exact hk3 j hj1 hj2
    · simp only [Bool.not_eq_true] at ht
      rw [if_pos (by simp [ht])] at h
      injection h with h
      refine ⟨h ▸ ht, counter, le_refl _, h.symm, ?_⟩
      intro j hj1 hj2
      omega

/-- C3: when `_get_unique_entry_name` returns a name it is free both on
disk and in the ledger; it is the desired name when that is free, and
otherwise the first `name(k).ext` candidate (counter from 1, inserted
before the `splitext` extension) all of whose predecessors are taken.
Moreover two distinct files both named `a.txt`, trashed from `/docs` and
`/home` into the same empty trash root, receive the entry names `a.txt`
and `a(1).txt` and each ledger record keeps its own original path. -/
theorem c3_unique_entry_name :
    (∀ diskNames ledgerNames desired s,
      get_unique_entry_name diskNames ledgerNames desired = some s →
      entryTaken diskNames ledgerNames s = false ∧
      (entryTaken diskNames ledgerNames desired = false → s = desired) ∧
      (entryTaken diskNames ledgerNames desired = true →
        ∃ k, 1 ≤ k ∧ s = candidateName desired k ∧
          ∀ j, 1 ≤ j → j < k →
            entryTaken diskNames ledgerNames (candidateName desired j) = true))
    ∧ trash_single_file 7 "/docs" "a.txt" ⟨[], []⟩
        = some ⟨["a.txt"], [⟨7, "a.txt", "/docs/a.txt"⟩]⟩
    ∧ trash_single_file 7 "/home" "a.txt" ⟨["a.txt"], [⟨7, "a.txt", "/docs/a.txt"⟩]⟩
        = some ⟨["a.txt", "a(1).txt"],
            [⟨7, "a.txt", "/docs/a.txt"⟩, ⟨7, "a(1).txt", "/home/a.txt"⟩]⟩ := by
  refine ⟨?_, by decide, by decide⟩
  intro diskNames ledgerNames desired s h
  unfold get_unique_entry_name at h
  by_cases hd : diskNames.contains desired = true
  · rw [if_neg (by rw [hd]; simp)] at h
    obtain ⟨h1, k, hk1, hk2, hk3⟩ := findUniqueLoop_spec _ _ _ _ _ _ h
    refine ⟨h1, ?_, ?_⟩
    · intro hfree
      rw [entryTaken, hd] at hfree
      simp at hfree
    · intro _
      exact ⟨k, hk1, hk2, fun j hj1 hj2 => hk3 j hj1 hj2⟩
  · simp only [Bool.not_eq_true] at hd
    rw [if_pos (by rw [hd]; simp)] at h
    by_cases hl : (find_by_entry_name ledgerNames desired).isNone = true
    · rw [if_pos hl] at h
      injection h with h
      subst h
      have hfree : entryTaken diskNames ledgerNames desired = false := by
        rw [entryTaken, hd]
        simpa using hl
      refine ⟨hfree, fun _ => rfl, ?_⟩
      intro htaken
      rw [hfree] at htaken
      exact absurd htaken (by simp)
    · rw [if_neg hl] at h
      obtain ⟨h1, k, hk1, hk2, hk3⟩ := findUniqueLoop_spec _ _ _ _ _ _ h
      refine ⟨h1, ?_, ?_⟩
      · intro hfree
        exfalso
        rw [entryTaken, hd] at hfree
        simp only [Bool.false_or] at hfree
        rcases hopt : find_by_entry_name ledgerNames desired with _ | v
        · exact hl (by simp [hopt])
        · rw [hopt] at hfree
          simp at hfree
      · intro _
        exact ⟨k, hk1, hk2, fun j hj1 hj2 => hk3 j hj1 hj2⟩

/-- C3 witness: the general statement applied to an occupied trash root
(`a.txt` on disk), where the returned unique name is `a(1).txt`. -/
theorem c3_unique_entry_name_witness :
    entryTaken ["a.txt"] [] "a(1).txt" = false ∧
    (entryTaken ["a.txt"] [] "a.txt" = false → "a(1).txt" = "a.txt") ∧
    (entryTaken ["a.txt"] [] "a.txt" = true →
      ∃ k, 1 ≤ k ∧ "a(1).txt" = candidateName "a.txt" k ∧
        ∀ j, 1 ≤ j → j < k → entryTaken ["a.txt"] [] (candidateName "a.txt" j) = true) :=
  c3_unique_entry_name.1 ["a.txt"] [] "a.txt" "a(1).txt" (by decide)

/-! ### Task worker (`infra/services/task_worker.py`) -/

/-- Task states (`domain/values/task.py: TaskStatus`; the unreferenced
`ARCHIVING` member is omitted). -/
inductive TaskStatus
  | pending
  | running
  | completed
  | failed
deriving DecidableEq, Repr

/-- The task-record fields `_process_task` reads or writes
(`domain/entities/task.py`); Python float progress is modelled by exact
rationals, timestamps by `Nat` (the `updated_at` column, set on every
update, carries no claim content and is omitted). -/
structure TaskRec where
  taskId : Nat
  status : TaskStatus
  progress : ℚ
  message : Option String
  startedAt : Option Nat
  completedAt : Option Nat
deriving DecidableEq, Repr

/-- The value written by `_process_task.progress_callback`:
`done/total*100` (`0.0` when the total is falsy) clamped to `[0, 100]` via
`min(max(progress, 0.0), 100.0)`. -/
def progressValue (done total : Nat) : ℚ :=
  min (max (if total ≠ 0 then (done : ℚ) / (total : ℚ) * 100 else 0) 0) 100

/-- One handler execution as observed by `_process_task`: the sequence of
`(done, total)` progress-callback invocations it makes, and its outcome
(`Except.error` models a raised exception carrying `str(error)`). -/
structure HandlerRun where
  calls : List (Nat × Nat)
  result : Except String Unit

/-- Replay the progress-callback writes onto the task record. -/
def applyCallbacks (t : TaskRec) : List (Nat × Nat) → TaskRec
  | [] => t
  | c :: cs => applyCallbacks { t with progress := progressValue c.1 c.2 } cs

/-- The `RUNNING` + start-time update `_process_task` performs before
dispatching. -/
def markRunning (t0 : TaskRec) (now : Nat) : TaskRec :=
  { t0 with status := TaskStatus.running, startedAt := some now }

/-- `TaskWorker._process_task`: load the task (raising `NotFoundError` out
of the function when absent), mark it `RUNNING` with a start time, replay
the handler with its progress writes, then mark `COMPLETED` with progress
100 on success or `FAILED` with the exception message and a completion
time on any exception (which is consumed here). -/
def process_task (lookup : Option TaskRec) (run : HandlerRun) (now : Nat) :
    Except String TaskRec :=
  match lookup with
  | none => Except.error "Task not found in database."
  | some t0 =>
    match run.result with
    | Except.ok _ =>
      Except.ok { applyCallbacks (markRunning t0 now) run.calls with
        status := TaskStatus.completed, completedAt := some now, progress := 100 }
    | Except.error e =>
      Except.ok { applyCallbacks (markRunning t0 now) run.calls with
        status := TaskStatus.failed, message := some e, completedAt := some now }

/-- Lookup in the persisted task table (`TaskRepository.get_by_id`). -/
def lookupTask (store : List (Nat × TaskRec)) (i : Nat) : Option TaskRec :=
  (store.find? (fun kv => kv.1 = i)).map Prod.snd

/-- Persisting a task record (`TaskRepository.update`). -/
def updateTask (store : List (Nat × TaskRec)) (i : Nat) (t : TaskRec) :
    List (Nat × TaskRec) :=
  store.map (fun kv => if kv.1 = i then (i, t) else kv)

/-- One iteration of the `TaskWorker.start` loop body: `_process_task` on
the dequeued id inside the `try/except` that logs and swallows any
escaping exception, so the loop itself never raises. -/
def worker_step (runs : Nat → HandlerRun) (now : Nat)
    (store : List (Nat × TaskRec)) (taskId : Nat) : List (Nat × TaskRec) :=
  match process_task (lookupTask store taskId) (runs taskId) now with
  | Except.ok t => updateTask store taskId t
  | Except.error _ => store

/-- The worker loop draining the queued task ids in FIFO order. -/
def run_worker (runs : Nat → HandlerRun) (now : Nat)
    (store : List (Nat × TaskRec)) : List Nat → List (Nat × TaskRec)
  | [] => store
  | i :: q => run_worker runs now (worker_step runs now store i) q

theorem lookupTask_updateTask_ne (i j : Nat) (t : TaskRec) (hij : i ≠ j) :
    ∀ store, lookupTask (updateTask store j t) i = lookupTask store i := by
  intro store
  unfold lookupTask updateTask
  induction store with
  | nil => rfl
  | cons kv rest ih =>
    by_cases hk : kv.1 = j
    · simp only [List.map_cons, if_pos hk, List.find?_cons]
      rw [show (decide (j = i)) = false from by simpa using (Ne.symm hij),
        show (decide (kv.1 = i)) = false from by
          simp only [decide_eq_false_iff_not]
          rw [hk]
          exact Ne.symm hij]
      exact ih
    · simp only [List.map_cons, if_neg hk, List.find?_cons]
      by_cases hki : kv.1 = i
      · rw [show (decide (kv.1 = i)) = true from by simpa using hki]
      · rw [show (decide (kv.1 = i)) = false from by simpa using hki]
        exact ih

theorem run_worker_untouched (runs : Nat → HandlerRun) (now : Nat) (i : Nat) :
    ∀ queue store, i ∉ queue →
      lookupTask (run_worker runs now store queue) i = lookupTask store i := by
  intro queue
  induction queue with
  | nil => intro store _; rfl
  | cons j q ih =>
    intro store hq
    have hij : i ≠ j := fun h => hq (h ▸ List.mem_cons_self j q)
    have hstep : lookupTask (worker_step runs now store j) i = lookupTask store i := by
      unfold worker_step
      rcases process_task (lookupTask store j) (runs j) now with _ | t
      · rfl
      · exact lookupTask_updateTask_ne i j t hij store
    calc lookupTask (run_worker runs now (worker_step runs now store j) q) i
        = lookupTask (worker_step runs now store j) i :=
          ih _ (fun h => hq (List.mem_cons_of_mem j h))
      _ = lookupTask store i := hstep

/-- C5: per dequeued task, a successful handler yields a persisted record
in `COMPLETED` with progress 100; a handler exception yields `FAILED` with
the exception message and a completion timestamp; `_process_task` only
ever persists terminal states; the loop body is total — a lookup failure
leaves the store unchanged (the exception is logged, never propagated) —
and the loop never touches (in particular never resumes) a task whose id
it does not dequeue. -/
theorem c5_worker_task_boundary (lookup : Option TaskRec) (run : HandlerRun)
    (now : Nat) (runs : Nat → HandlerRun) (store : List (Nat × TaskRec))
    (queue : List Nat) :
    (∀ t0, lookup = some t0 →
      (run.result = Except.ok () →
        ∃ t, process_task lookup run now = Except.ok t ∧
          t.status = TaskStatus.completed ∧ t.progress = 100) ∧
      (∀ e, run.result = Except.error e →
        ∃ t, process_task lookup run now = Except.ok t ∧
          t.status = TaskStatus.failed ∧ t.message = some e ∧
          t.completedAt = some now))
    ∧ (∀ t, process_task lookup run now = Except.ok t →
        t.status = TaskStatus.completed ∨ t.status = TaskStatus.failed)
    ∧ (∀ i, lookupTask store i = none → worker_step runs now store i = store)
    ∧ (∀ i, i ∉ queue →
        lookupTask (run_worker runs now store queue) i = lookupTask store i) := by
  refine ⟨?_, ?_, ?_, ?_⟩
  · intro t0 hl
    subst hl
    constructor
    · intro hok
      unfold process_task
      rw [hok]
      exact ⟨_, rfl, rfl, rfl⟩
    · intro e herr
      unfold process_task
      rw [herr]
      exact ⟨_, rfl, rfl, rfl, rfl⟩
  · intro t ht
    unfold process_task at ht
    rcases lookup with _ | t0
    · exact absurd ht (by simp)
    · rcases hr : run.result with e | u
      · rw [hr] at ht
        injection ht with ht
        right
        rw [← ht]
      · rw [hr] at ht
        injection ht with ht
        left
        rw [← ht]
  · intro i hnone
    unfold worker_step process_task
    rw [hnone]
  · intro i hq
    exact run_worker_untouched runs now i queue store hq

/-- A concrete pending task record used by witnesses. -/
def sampleTask : TaskRec :=
  { taskId := 3, status := TaskStatus.pending, progress := 0,
    message := none, startedAt := none, completedAt := none }

/-- C5 witness: the theorem applied to a concrete pending task whose
handler raises "boom": the persisted record is FAILED with that message. -/
theorem c5_worker_task_boundary_witness :
    ∃ t, process_task (some sampleTask)
        { calls := [(1, 2)], result := Except.error "boom" } 5
      = Except.ok t ∧
      t.status = TaskStatus.failed ∧ t.message = some "boom" ∧
      t.completedAt = some 5 :=
  ((c5_worker_task_boundary (some sampleTask)
      { calls := [(1, 2)], result := Except.error "boom" } 5
      (fun _ => { calls := [], result := Except.ok () }) [] []).1
    _ rfl).2 "boom" rfl

theorem applyCallbacks_progress (calls : List (Nat × Nat)) :
    ∀ t : TaskRec, (applyCallbacks t calls).progress
      = match calls.getLast? with
        | none => t.progress
        | some c => progressValue c.1 c.2 := by
  induction calls with
  | nil => intro t; rfl
  | cons c cs ih =>
    intro t
    rcases hcs : cs with _ | ⟨d, ds⟩
    · rfl
    · rw [← hcs]
      show (applyCallbacks { t with progress := progressValue c.1 c.2 } cs).progress = _
      rw [ih]
      rw [hcs, List.getLast?_cons_cons]
      rcases hgl : (d :: ds).getLast? with _ | c'
      · exact absurd hgl (by simp)
      · rfl

/-- C6: the persisted progress value is always within `[0, 100]`; for a
fixed total it is monotone in the done count (so the values written by a
batch's monotonically increasing callback invocations are non-decreasing);
a task completing successfully is persisted with progress exactly 100; a
task failing keeps the progress written by the last callback before the
failure (the task's progress after replaying the callbacks), which for a
nonempty call sequence is the last call's clamped value. -/
theorem c6_progress_invariants (done d1 d2 total : Nat) (t0 : TaskRec)
    (run : HandlerRun) (now : Nat) :
    (0 ≤ progressValue done total ∧ progressValue done total ≤ 100)
    ∧ (d1 ≤ d2 → progressValue d1 total ≤ progressValue d2 total)
    ∧ (run.result = Except.ok () →
      ∀ t, process_task (some t0) run now = Except.ok t → t.progress = 100)
    ∧ (∀ e, run.result = Except.error e →
      ∀ t, process_task (some t0) run now = Except.ok t →
        t.progress = (applyCallbacks (markRunning t0 now) run.calls).progress)
    ∧ (∀ (t : TaskRec) (calls : List (Nat × Nat)) (c : Nat × Nat),
        calls.getLast? = some c →
        (applyCallbacks t calls).progress = progressValue c.1 c.2) := by
  refine ⟨⟨?_, ?_⟩, ?_, ?_, ?_, ?_⟩
  · exact le_min (le_max_right _ _) (by norm_num)
  · exact min_le_right _ _
  · intro hle
    unfold progressValue
    by_cases ht : total = 0
    · rw [if_neg (by simp [ht]), if_neg (by simp [ht])]
    · rw [if_pos ht, if_pos ht]
      have hc : (d1 : ℚ) ≤ (d2 : ℚ) := by exact_mod_cast hle
      have htp : (0 : ℚ) < (total : ℚ) := by
        exact_mod_cast Nat.pos_of_ne_zero ht
      have hmul : (d1 : ℚ) / (total : ℚ) * 100 ≤ (d2 : ℚ) / (total : ℚ) * 100 := by
        gcongr
      exact min_le_min (max_le_max hmul (le_refl 0)) (le_refl _)
  · intro hok t ht
    unfold process_task at ht
    rw [hok] at ht
    injection ht with ht
    rw [← ht]
  · intro e herr t ht
    unfold process_task at ht
    rw [herr] at ht
    injection ht with ht
    rw [← ht]
  · intro t calls c hlast
    rw [applyCallbacks_progress, hlast]

/-- C6 witness: the theorem applied at total 2 (monotone from done 1 to 2)
and to a failing run whose last callback wrote `progressValue 1 2 = 50`. -/
theorem c6_progress_invariants_witness :
    (progressValue 1 2 ≤ progressValue 2 2) ∧
    (applyCallbacks sampleTask [(1, 2)]).progress = progressValue 1 2 :=
  ⟨(c6_progress_invariants 0 1 2 2 sampleTask
      { calls := [], result := Except.ok () } 0).2.1 (by decide),
   (c6_progress_invariants 0 1 2 2 sampleTask
      { calls := [], result := Except.ok () } 0).2.2.2.2
     sampleTask [(1, 2)] (1, 2) rfl⟩

/-! ### Trash batch processing (`TaskWorker._process_trash_task` /
`_validate_trash_task_result`) -/

/-- `TaskWorker._validate_trash_task_result`: raise
`InternalServerError("All N file(s) failed to trash: …")` only when every
file failed (`processed == 0 and total_files > 0`); partial failures are
merely logged. -/
def validate_trash_task_result (processed totalFiles : Nat)
    (failedFiles : List String) : Except PyErr Unit :=
  if processed = 0 ∧ totalFiles > 0 then
    Except.error (PyErr.internal
      ("All " ++ toString totalFiles ++ " file(s) failed to trash"
        ++ (if failedFiles ≠ [] then ": " ++ intercal ", " failedFiles else "")))
  else Except.ok ()

/-- `_trash_single_file` as invoked by the batch loop: the leading
`_validate_path(src_path)` check (raising `NotFoundError` on a missing
source, modelled by the `srcExists` predicate on the joined source path)
followed by `trash_single_file`; `none` models a raised exception. -/
def trash_single_file_checked (userId : Nat) (srcDir fileName : String)
    (srcExists : String → Bool) (st : TrashState) : Option TrashState :=
  if !srcExists (pyJoin srcDir fileName) then none
  else trash_single_file userId srcDir fileName st

/-- The per-name loop of `_process_trash_task`: each name is tried; a
success bumps `processed` and fires the progress callback
`(processed, total)` (events recorded), a caught per-item exception
appends the name to `failed_files` and the loop continues. -/
def trashLoopGo (userId : Nat) (srcDir : String) (srcExists : String → Bool)
    (totalFiles : Nat) :
    List String → TrashState → Nat → List String → List (Nat × Nat) →
      TrashState × Nat × List String × List (Nat × Nat)
  | [], st, processed, failed, evs => (st, processed, failed, evs)
  | name :: rest, st, processed, failed, evs =>
    match trash_single_file_checked userId srcDir name srcExists st with
    | none =>
      trashLoopGo userId srcDir srcExists totalFiles rest st processed
        (failed ++ [name]) evs
    | some st' =>
      trashLoopGo userId srcDir srcExists totalFiles rest st' (processed + 1)
        failed (evs ++ [(processed + 1, totalFiles)])

/-- `TaskWorker._process_trash_task` (restricted to regular-file sources,
as in `trash_single_file`): run the loop over the task's file names, then
validate the aggregate result. Returns the final trash state, the success
count, the failed names, the progress events, and the handler outcome. -/
def process_trash_task (userId : Nat) (srcDir : String)
    (srcExists : String → Bool) (fileNames : List String) (st : TrashState) :
    TrashState × Nat × List String × List (Nat × Nat) × Except PyErr Unit :=
  match trashLoopGo userId srcDir srcExists fileNames.length fileNames st 0 [] [] with
  | (st', processed, failed, evs) =>
    (st', processed, failed, evs,
      validate_trash_task_result processed fileNames.length failed)

/-- The terminal status `_process_task` derives from a handler outcome
(success → COMPLETED, raised exception → FAILED). -/
def finishStatus (r : Except PyErr Unit) : TaskStatus :=
  match r with
  | Except.ok _ => TaskStatus.completed
  | Except.error _ => TaskStatus.failed

/-- C4 counterexample: trashing `["a.txt", "missing.txt"]` from `/docs`
where only `/docs/a.txt` exists creates the one ledger entry for the
present item, but the handler returns successfully (the single failure is
only logged), so the task ends COMPLETED — not FAILED with a
"1 of 2 succeeded" message as claimed. -/
theorem c4_partial_trash_completes :
    (process_trash_task 7 "/docs" (fun p => p = "/docs/a.txt")
        ["a.txt", "missing.txt"] ⟨[], []⟩).2.2.2.2 = Except.ok ()
    ∧ finishStatus (process_trash_task 7 "/docs" (fun p => p = "/docs/a.txt")
        ["a.txt", "missing.txt"] ⟨[], []⟩).2.2.2.2 = TaskStatus.completed
    ∧ (process_trash_task 7 "/docs" (fun p => p = "/docs/a.txt")
        ["a.txt", "missing.txt"] ⟨[], []⟩).1.ledger
      = [⟨7, "a.txt", "/docs/a.txt"⟩]
    ∧ TaskStatus.completed ≠ TaskStatus.failed := by
  refine ⟨rfl, rfl, by decide, by decide⟩

theorem trashLoopGo_ledger (userId : Nat) (srcDir : String)
    (srcExists : String → Bool) (totalFiles : Nat) :
    ∀ (names : List String) (st : TrashState) (processed : Nat)
      (failed : List String) (evs : List (Nat × Nat)),
      (trashLoopGo userId srcDir srcExists totalFiles names st processed failed evs).1.ledger.length
          + processed
        = st.ledger.length
          + (trashLoopGo userId srcDir srcExists totalFiles names st processed failed evs).2.1 := by
  intro names
  induction names with
  | nil => intro st processed failed evs; rfl
  | cons name rest ih =>
    intro st processed failed evs
    simp only [trashLoopGo]
    rcases hstep : trash_single_file_checked userId srcDir name srcExists st with _ | st'
    · exact ih st processed (failed ++ [name]) evs
    · dsimp only
      have hlen : st'.ledger.length = st.ledger.length + 1 := by
        unfold trash_single_file_checked at hstep
        by_cases hex : (!srcExists (pyJoin srcDir name)) = true
        · rw [if_pos hex] at hstep
          exact absurd hstep (by simp)
        · rw [if_neg hex] at hstep
          unfold trash_single_file at hstep
          rcases hun : get_unique_entry_name st.diskNames
              (st.ledger.map (fun r => r.entryName))
              (pyRelpath (pyJoin srcDir name) (pyNormpath srcDir)) with _ | u
          · rw [hun] at hstep
            exact absurd hstep (by simp)
          · rw [hun] at hstep
            injection hstep with hstep
            rw [← hstep]
            simp
      have := ih st' (processed + 1) failed (evs ++ [(processed + 1, totalFiles)])
      omega

/-- C4 (amended): the trash batch continues past per-item failures: the
handler returns success — and the task therefore ends COMPLETED — exactly
when at least one item succeeded (or the name list was empty); it raises —
making the task FAILED — exactly when all of a nonempty batch failed, with
the aggregate message `All N file(s) failed to trash: …`; and the ledger
grows by exactly one record per succeeded (regular-file) item. -/
theorem c4_trash_failure_policy (userId : Nat) (srcDir : String)
    (srcExists : String → Bool) (fileNames : List String) (st : TrashState) :
    ((process_trash_task userId srcDir srcExists fileNames st).2.2.2.2 = Except.ok ()
      ↔ ((process_trash_task userId srcDir srcExists fileNames st).2.1 ≠ 0
          ∨ fileNames = []))
    ∧ (finishStatus (process_trash_task userId srcDir srcExists fileNames st).2.2.2.2
          = TaskStatus.failed
      ↔ ((process_trash_task userId srcDir srcExists fileNames st).2.1 = 0
          ∧ fileNames ≠ []))
    ∧ (process_trash_task userId srcDir srcExists fileNames st).1.ledger.length
        = st.ledger.length + (process_trash_task userId srcDir srcExists fileNames st).2.1
    ∧ ((process_trash_task userId srcDir srcExists fileNames st).2.1 = 0 →
        fileNames ≠ [] →
        (process_trash_task userId srcDir srcExists fileNames st).2.2.2.2
          = Except.error (PyErr.internal
              ("All " ++ toString fileNames.length ++ " file(s) failed to trash"
                ++ (if (process_trash_task userId srcDir srcExists fileNames st).2.2.1 ≠ []
                    then ": " ++ intercal ", "
                      (process_trash_task userId srcDir srcExists fileNames st).2.2.1
                    else "")))) := by
  have hlist : fileNames = [] ↔ fileNames.length = 0 := by
    constructor
    · intro h; rw [h]; rfl
    · intro h; exact List.length_eq_zero.mp h
  unfold process_trash_task
  rcases hloop : trashLoopGo userId srcDir srcExists fileNames.length fileNames st 0 [] [] with
    ⟨st', processed, failed, evs⟩
  dsimp only
  refine ⟨?_, ?_, ?_, ?_⟩
  · unfold validate_trash_task_result
    by_cases hc : processed = 0 ∧ fileNames.length > 0
    · rw [if_pos hc]
      constructor
      · intro h
        exact absurd h (by simp)
      · intro h
        exfalso
        rcases h with h | h
        · exact h hc.1
        · rw [hlist] at h
          have := hc.2
          omega
    · rw [if_neg hc]
      constructor
      · intro _
        by_cases hp : processed = 0
        · right
          rw [hlist]
          omega
        · left
          exact hp
      · intro _
        rfl
  · unfold validate_trash_task_result
    by_cases hc : processed = 0 ∧ fileNames.length > 0
    · rw [if_pos hc]
      constructor
      · intro _
        refine ⟨hc.1, fun he => ?_⟩
        have := hc.2
        rw [he] at this
        simp at this
      · intro _
        rfl
    · rw [if_neg hc]
      constructor
      · intro h
        exact absurd h (by simp [finishStatus])
      · intro h
        exfalso
        apply hc
        refine ⟨h.1, ?_⟩
        have h2 : ¬ fileNames.length = 0 := fun hz => h.2 (hlist.mpr hz)
        omega
  · have := trashLoopGo_ledger userId srcDir srcExists fileNames.length fileNames st 0 [] []
    rw [hloop] at this
    simpa using this
  · intro hp hne
    unfold validate_trash_task_result
    have h2 : ¬ fileNames.length = 0 := fun hz => hne (hlist.mpr hz)
    rw [if_pos ⟨hp, by omega⟩]

/-- C4 witness: the amended theorem applied to an all-missing batch of one
name: the handler raises the aggregate all-failed error. -/
theorem c4_trash_failure_policy_witness :
    (process_trash_task 7 "/docs" (fun _ => false) ["x"] ⟨[], []⟩).2.2.2.2
      = Except.error (PyErr.internal
          ("All " ++ toString (["x"] : List String).length ++ " file(s) failed to trash"
            ++ (if (process_trash_task 7 "/docs" (fun _ => false) ["x"] ⟨[], []⟩).2.2.1 ≠ []
                then ": " ++ intercal ", "
                  (process_trash_task 7 "/docs" (fun _ => false) ["x"] ⟨[], []⟩).2.2.1
                else ""))) :=
  (c4_trash_failure_policy 7 "/docs" (fun _ => false) ["x"] ⟨[], []⟩).2.2.2
    (by decide) (by decide)

/-! ### Batch copy/move/delete
(`LocalDriver.copy/move/delete` in `infra/drivers/local_driver.py`,
`S3Driver.copy/move/delete` in `infra/drivers/s3_driver.py`) -/

/-- Result of a batch driver operation: the final filesystem/object-store
contents, the `(done, total)` progress-callback invocations, and the
raised error, if any. -/
structure BatchResult where
  fs : List String
  events : List (Nat × Nat)
  error : Option PyErr
deriving DecidableEq, Repr

/-- `LocalDriver._validate_path` on a symlink-free filesystem modelled by
its list of existing paths (stored normalized): normalize and test
existence. -/
def fsExists (fs : List String) (p : String) : Bool := fs.contains (pyNormpath p)

/-- The per-name loop of `LocalDriver.copy`: a source failing
`_validate_path` is skipped (`continue`, no progress event); an existing
destination aborts the batch with `ConflictError`; otherwise the copy is
performed (`shutil.copytree`/`copy2`, modelled as adding the normalized
destination path) and the progress callback fires with the 1-based
position and the fixed total. -/
def localCopyGo (physSrcDir physDstDir : String) (total : Nat) :
    Nat → List String → List String → List (Nat × Nat) → BatchResult
  | _, [], fs, evs => ⟨fs, evs, none⟩
  | index, name :: rest, fs, evs =>
    if !fsExists fs (pyJoin physSrcDir name) then
      localCopyGo physSrcDir physDstDir total (index + 1) rest fs evs
    else if fsExists fs (pyJoin physDstDir name) then
      ⟨fs, evs, some (PyErr.conflict "Destination already exists.")⟩
    else
      localCopyGo physSrcDir physDstDir total (index + 1) rest
        (fs ++ [pyNormpath (pyJoin physDstDir name)]) (evs ++ [(index, total)])

/-- `LocalDriver.copy`: resolve both directories through
`_get_physical_path`, require both to exist (`_validate_directory`), then
run the batch loop with 1-based indices. -/
def localCopy (rootPath trashPath : String) (base : DriverBase)
    (srcDir dstDir : String) (names : List String) (fs : List String) :
    BatchResult :=
  match get_physical_path rootPath trashPath base srcDir with
  | Except.error e => ⟨fs, [], some e⟩
  | Except.ok ps =>
    match get_physical_path rootPath trashPath base dstDir with
    | Except.error e => ⟨fs, [], some e⟩
    | Except.ok pd =>
      if !fsExists fs ps then ⟨fs, [], some (PyErr.notFound "Directory not found.")⟩
      else if !fsExists fs pd then ⟨fs, [], some (PyErr.notFound "Directory not found.")⟩
      else localCopyGo ps pd names.length 1 names fs []

/-- The per-name loop of `LocalDriver.move`: as for copy, but the move
removes the normalized source and adds the normalized destination. -/
def localMoveGo (physSrcDir physDstDir : String) (total : Nat) :
    Nat → List String → List String → List (Nat × Nat) → BatchResult
  | _, [], fs, evs => ⟨fs, evs, none⟩
  | index, name :: rest, fs, evs =>
    if !fsExists fs (pyJoin physSrcDir name) then
      localMoveGo physSrcDir physDstDir total (index + 1) rest fs evs
    else if fsExists fs (pyJoin physDstDir name) then
      ⟨fs, evs, some (PyErr.conflict "Destination already exists.")⟩
    else
      localMoveGo physSrcDir physDstDir total (index + 1) rest
        ((fs.erase (pyNormpath (pyJoin physSrcDir name)))
          ++ [pyNormpath (pyJoin physDstDir name)]) (evs ++ [(index, total)])

/-- The per-name loop of `LocalDriver.delete`: a path failing
`_validate_path` is skipped; otherwise it is removed
(`shutil.rmtree`/`os.remove`) and the progress callback fires. -/
def localDeleteGo (physDir : String) (total : Nat) :
    Nat → List String → List String → List (Nat × Nat) → BatchResult
  | _, [], fs, evs => ⟨fs, evs, none⟩
  | index, name :: rest, fs, evs =>
    if !fsExists fs (pyJoin physDir name) then
      localDeleteGo physDir total (index + 1) rest fs evs
    else
      localDeleteGo physDir total (index + 1) rest
        (fs.erase (pyNormpath (pyJoin physDir name))) (evs ++ [(index, total)])

/-- `str.replace("\\", "/")`. -/
def backToFwd (s : String) : String :=
  String.mk (s.toList.map (fun c => if c = '\\' then '/' else c))

/-- The leading-slash normalization of `S3Driver._strip_mount`. -/
def ensureLeadSlash (s : String) : String :=
  if !pyStartsWith s "/" then "/" ++ s else s

/-- `S3Driver._strip_mount`: normalize separators, require the path to
start with the mount path, strip it, and reject any `..` component. -/
def strip_mount (mountPath logicalPath : String) : Except PyErr String :=
  if !pyStartsWith (ensureLeadSlash (backToFwd logicalPath)) mountPath then
    Except.error (PyErr.badRequest "Path is outside the storage mount.")
  else if (splitSlash (lstripSlash
      (pyDrop (ensureLeadSlash (backToFwd logicalPath)) mountPath.length))).contains ".." then
    Except.error (PyErr.badRequest "Path traversal detected.")
  else
    Except.ok (lstripSlash
      (pyDrop (ensureLeadSlash (backToFwd logicalPath)) mountPath.length))

/-- `S3Driver._ensure_dir_suffix`. -/
def ensureDirSuffix (key : String) : String :=
  if pyEndsWith key "/" then key else key ++ "/"

/-- The key prefix selection of `S3Driver._path_to_key`: the root prefix
plus the relative key, overridden by the trash prefix for `TRASH` base. -/
def s3KeyPfx (rootPfx trashPfx : String) (base : DriverBase) (rel : String) : String :=
  if base = DriverBase.trash then trashPfx ++ rel
  else if rel ≠ "" then rootPfx ++ rel else rootPfx

/-- The final `ensure_dir` step of `_path_to_key`. -/
def dirSuffixed (ensureDir : Bool) (k : String) : String :=
  if ensureDir && k ≠ "" then ensureDirSuffix k else k

/-- `S3Driver._path_to_key`. -/
def path_to_key (mountPath rootPfx trashPfx : String) (base : DriverBase)
    (logicalPath : String) (ensureDir : Bool) : Except PyErr String :=
  match strip_mount mountPath logicalPath with
  | Except.error e => Except.error e
  | Except.ok rel =>
    if base = DriverBase.share then
      Except.error (PyErr.badRequest "SHARE base is not implemented for S3Driver.")
    else
      Except.ok (dirSuffixed ensureDir (s3KeyPfx rootPfx trashPfx base rel))

/-- The per-name loop of `S3Driver.copy`: each name is key-resolved in
both directories (a resolution error propagates, aborting); `client.copy`
of a missing source key raises a 404 `ClientError`, which `_wrap_error`
turns into `NotFoundError("Object not found.")`, aborting the batch — no
skip; a successful server-side copy stores the destination key and fires
the progress callback. The bucket is modelled by its list of keys. -/
def s3CopyGo (mountPath rootPfx trashPfx : String) (base : DriverBase)
    (srcDir dstDir : String) (total : Nat) :
    Nat → List String → List String → List (Nat × Nat) → BatchResult
  | _, [], store, evs => ⟨store, evs, none⟩
  | index, name :: rest, store, evs =>
    match path_to_key mountPath rootPfx trashPfx base (pyJoin srcDir name) false,
        path_to_key mountPath rootPfx trashPfx base (pyJoin dstDir name) false with
    | Except.error e, _ => ⟨store, evs, some e⟩
    | _, Except.error e => ⟨store, evs, some e⟩
    | Except.ok sk, Except.ok dk =>
      if !store.contains sk then
        ⟨store, evs, some (PyErr.notFound "Object not found.")⟩
      else
        s3CopyGo mountPath rootPfx trashPfx base srcDir dstDir total (index + 1) rest
          (if store.contains dk then store else store ++ [dk]) (evs ++ [(index, total)])

/-- The per-name loop of `S3Driver.delete`: `client.delete_object` is
idempotent — deleting a missing key succeeds — so every resolved name is
processed and fires the progress callback. -/
def s3DeleteGo (mountPath rootPfx trashPfx : String) (base : DriverBase)
    (dir : String) (total : Nat) :
    Nat → List String → List String → List (Nat × Nat) → BatchResult
  | _, [], store, evs => ⟨store, evs, none⟩
  | index, name :: rest, store, evs =>
    match path_to_key mountPath rootPfx trashPfx base (pyJoin dir name) false with
    | Except.error e => ⟨store, evs, some e⟩
    | Except.ok k =>
      s3DeleteGo mountPath rootPfx trashPfx base dir total (index + 1) rest
        (store.erase k) (evs ++ [(index, total)])

/-- `S3Driver.move`: `copy` then `delete` (no native rename); the delete
pass runs with no progress callback. -/
def s3Move (mountPath rootPfx trashPfx : String) (base : DriverBase)
    (srcDir dstDir : String) (names : List String) (store : List String) :
    BatchResult :=
  match s3CopyGo mountPath rootPfx trashPfx base srcDir dstDir names.length
      1 names store [] with
  | ⟨store', evs, none⟩ =>
    match s3DeleteGo mountPath rootPfx trashPfx base srcDir names.length
        1 names store' [] with
    | ⟨store'', _, err⟩ => ⟨store'', evs, err⟩
  | r => r

/-- C7 counterexample: `S3Driver.copy` over `["missing", "present"]` on a
bucket holding only `src/present` aborts immediately with
`NotFoundError("Object not found.")` at the missing first source — it is
not silently skipped, and the remaining name `present` is never copied
(no `dst/present` key is created, no progress fires), contradicting the
claimed skip-and-continue behavior for the object-store driver. -/
theorem c7_s3_copy_aborts_on_missing :
    s3CopyGo "/" "" ".trash/" DriverBase.regular "/src" "/dst" 2 1
        ["missing", "present"] ["src/present"] []
      = ⟨["src/present"], [], some (PyErr.notFound "Object not found.")⟩
    ∧ ((s3CopyGo "/" "" ".trash/" DriverBase.regular "/src" "/dst" 2 1
        ["missing", "present"] ["src/present"] []).fs.contains "dst/present") = false := by
  refine ⟨by decide, by decide⟩

/-- C7 (amended): for `LocalDriver` copy/move/delete a name whose source
fails the existence check is silently skipped — no progress event, the
batch continues with the remaining names; an existing copy/move
destination aborts the remaining batch immediately with `ConflictError`;
each successfully processed entry fires the progress callback once with
its 1-based position and the fixed total. The `S3Driver`, by contrast,
aborts its copy batch with `NotFoundError` at a missing source key (and
its delete pass processes every name, missing or not, since
`delete_object` is idempotent). -/
theorem c7_batch_error_policy
    (physSrc physDst mountPath rootPfx trashPfx srcDir dstDir name : String)
    (base : DriverBase) (idx tot : Nat) (rest : List String)
    (fs store : List String) (evs : List (Nat × Nat)) :
    (fsExists fs (pyJoin physSrc name) = false →
      localCopyGo physSrc physDst tot idx (name :: rest) fs evs
        = localCopyGo physSrc physDst tot (idx + 1) rest fs evs ∧
      localMoveGo physSrc physDst tot idx (name :: rest) fs evs
        = localMoveGo physSrc physDst tot (idx + 1) rest fs evs ∧
      localDeleteGo physSrc tot idx (name :: rest) fs evs
        = localDeleteGo physSrc tot (idx + 1) rest fs evs)
    ∧ (fsExists fs (pyJoin physSrc name) = true →
        fsExists fs (pyJoin physDst name) = true →
      localCopyGo physSrc physDst tot idx (name :: rest) fs evs
        = ⟨fs, evs, some (PyErr.conflict "Destination already exists.")⟩ ∧
      localMoveGo physSrc physDst tot idx (name :: rest) fs evs
        = ⟨fs, evs, some (PyErr.conflict "Destination already exists.")⟩)
    ∧ (fsExists fs (pyJoin physSrc name) = true →
        fsExists fs (pyJoin physDst name) = false →
      localCopyGo physSrc physDst tot idx (name :: rest) fs evs
        = localCopyGo physSrc physDst tot (idx + 1) rest
            (fs ++ [pyNormpath (pyJoin physDst name)]) (evs ++ [(idx, tot)]) ∧
      localMoveGo physSrc physDst tot idx (name :: rest) fs evs
        = localMoveGo physSrc physDst tot (idx + 1) rest
            ((fs.erase (pyNormpath (pyJoin physSrc name)))
              ++ [pyNormpath (pyJoin physDst name)]) (evs ++ [(idx, tot)]))
    ∧ (fsExists fs (pyJoin physSrc name) = true →
      localDeleteGo physSrc tot idx (name :: rest) fs evs
        = localDeleteGo physSrc tot (idx + 1) rest
            (fs.erase (pyNormpath (pyJoin physSrc name))) (evs ++ [(idx, tot)]))
    ∧ (∀ sk dk,
        path_to_key mountPath rootPfx trashPfx base (pyJoin srcDir name) false
          = Except.ok sk →
        path_to_key mountPath rootPfx trashPfx base (pyJoin dstDir name) false
          = Except.ok dk →
        (store.contains sk = false →
          s3CopyGo mountPath rootPfx trashPfx base srcDir dstDir tot idx
              (name :: rest) store evs
            = ⟨store, evs, some (PyErr.notFound "Object not found.")⟩) ∧
        (store.contains sk = true →
          s3CopyGo mountPath rootPfx trashPfx base srcDir dstDir tot idx
              (name :: rest) store evs
            = s3CopyGo mountPath rootPfx trashPfx base srcDir dstDir tot (idx + 1)
                rest (if store.contains dk then store else store ++ [dk])
                (evs ++ [(idx, tot)])))
    ∧ (∀ k,
        path_to_key mountPath rootPfx trashPfx base (pyJoin srcDir name) false
          = Except.ok k →
        s3DeleteGo mountPath rootPfx trashPfx base srcDir tot idx
            (name :: rest) store evs
          = s3DeleteGo mountPath rootPfx trashPfx base srcDir tot (idx + 1) rest
              (store.erase k) (evs ++ [(idx, tot)])) := by
  refine ⟨?_, ?_, ?_, ?_, ?_, ?_⟩
  · intro hmiss
    refine ⟨?_, ?_, ?_⟩ <;>
      simp only [localCopyGo, localMoveGo, localDeleteGo, hmiss, Bool.not_false, if_true]
  · intro hsrc hdst
    refine ⟨?_, ?_⟩ <;>
      simp only [localCopyGo, localMoveGo, hsrc, Bool.not_true, Bool.false_eq_true,
        if_false, hdst, if_true]
  · intro hsrc hdst
    refine ⟨?_, ?_⟩ <;>
      simp only [localCopyGo, localMoveGo, hsrc, Bool.not_true, Bool.false_eq_true,
        if_false, hdst]
  · intro hsrc
    simp only [localDeleteGo, hsrc, Bool.not_true, Bool.false_eq_true, if_false]
  · intro sk dk hsk hdk
    constructor
    · intro hmiss
      simp only [s3CopyGo, hsk, hdk, hmiss, Bool.not_false, if_true]
    · intro hhit
      simp only [s3CopyGo, hsk, hdk, hhit, Bool.not_true, Bool.false_eq_true, if_false]
  · intro k hk
    simp only [s3DeleteGo, hk]

/-- C7 witness: the amended theorem applied concretely — a missing local
source is skipped, and an S3 copy with the source key present proceeds,
adding the destination key and firing `(1, 2)`. -/
theorem c7_batch_error_policy_witness :
    (localCopyGo "/r/src" "/r/dst" 2 1 ["missing", "b"] ["/r/src/b", "/r/dst"] []
      = localCopyGo "/r/src" "/r/dst" 2 2 ["b"] ["/r/src/b", "/r/dst"] []) ∧
    (s3CopyGo "/" "" ".trash/" DriverBase.regular "/src" "/dst" 2 1
        ["present"] ["src/present"] []
      = s3CopyGo "/" "" ".trash/" DriverBase.regular "/src" "/dst" 2 2 []
          (["src/present"] ++ ["dst/present"]) ([] ++ [(1, 2)])) :=
  ⟨((c7_batch_error_policy
      "/r/src" "/r/dst" "/" "" ".trash/" "/src" "/dst" "missing"
      DriverBase.regular 1 2 ["b"] ["/r/src/b", "/r/dst"] ["src/present"] []).1
    (by decide)).1,
   by
    have h := ((c7_batch_error_policy
      "/r/src" "/r/dst" "/" "" ".trash/" "/src" "/dst" "present"
      DriverBase.regular 1 2 [] ["/r/src/b", "/r/dst"] ["src/present"] []).2.2.2.2.1
      "src/present" "dst/present" rfl rfl).2 (by decide)
    simpa using h⟩

/-! ### Restore (`TaskWorker._process_restore_task` in
`infra/services/task_worker.py`, `restore_files` in `apis/trash.py`) -/

/-- The per-record loop of `_process_restore_task`. The filesystem (trash
root and destinations together) is modelled by one list of paths; `kept`
accumulates the ledger records not deleted. A record whose physical object
is gone, whose original path already exists, or whose move raises
(`moveFails` oracle) is appended to `failed` and kept in the ledger; a
successful move erases the trash path, recreates the original path, and
only then deletes the ledger record and fires progress. A
`_ensure_inside_trash` failure propagates, aborting the loop. -/
def restoreLoopGo (trashRoot : String) (moveFails : String → Bool) (total : Nat) :
    List TrashRec → List String → List TrashRec → Nat → List String →
      List (Nat × Nat) →
      List String × List TrashRec × Nat × List String × List (Nat × Nat) × Option PyErr
  | [], fs, kept, processed, failed, evs => (fs, kept, processed, failed, evs, none)
  | r :: rest, fs, kept, processed, failed, evs =>
    match ensure_inside_trash trashRoot r.entryName with
    | Except.error e => (fs, kept ++ (r :: rest), processed, failed, evs, some e)
    | Except.ok fsPath =>
      if !fs.contains fsPath then
        restoreLoopGo trashRoot moveFails total rest fs (kept ++ [r]) processed
          (failed ++ [r.entryName]) evs
      else if fs.contains r.originalPath then
        restoreLoopGo trashRoot moveFails total rest fs (kept ++ [r]) processed
          (failed ++ [r.entryName]) evs
      else if moveFails fsPath then
        restoreLoopGo trashRoot moveFails total rest fs (kept ++ [r]) processed
          (failed ++ [r.entryName]) evs
      else
        restoreLoopGo trashRoot moveFails total rest
          ((fs.erase fsPath) ++ [r.originalPath]) kept (processed + 1) failed
          (evs ++ [(processed + 1, total)])

/-- `TaskWorker._process_restore_task`. The `find_by_user_and_path` ledger
lookup is modelled from the spec (§6 `findByUserAndPath`; the repository
method is absent from the source tree): `records` is its result, checked
against the requested count (`NotFound` on mismatch) exactly as the code
checks `len(records) != len(task.file_names)`; the aggregate result is
validated with the same `_validate_trash_task_result` as the trash batch. -/
def process_restore_task (trashRoot : String) (records : List TrashRec)
    (numRequested : Nat) (fs : List String) (moveFails : String → Bool) :
    List String × List TrashRec × Nat × List String × List (Nat × Nat)
      × Except PyErr Unit :=
  if records.length ≠ numRequested then
    (fs, records, 0, [], [], Except.error (PyErr.notFound "Trash entry not found."))
  else
    match restoreLoopGo trashRoot moveFails records.length records fs [] 0 [] [] with
    | (fs', kept, processed, failed, evs, some e) =>
      (fs', kept, processed, failed, evs, Except.error e)
    | (fs', kept, processed, failed, evs, none) =>
      (fs', kept, processed, failed, evs,
        validate_trash_task_result processed records.length failed)

/-- The per-record validation loop of `apis/trash.py: restore_files`:
before the RESTORE task is created, each looked-up record must still have
its physical object (`NotFound` otherwise), and its original path must not
exist (`ConflictError("Original path already exists.")` otherwise). -/
def apiRestoreLoop (trashRoot : String) (fs : List String) :
    List TrashRec → Except PyErr Unit
  | [] => Except.ok ()
  | r :: rest =>
    match ensure_inside_trash trashRoot r.entryName with
    | Except.error e => Except.error e
    | Except.ok fsPath =>
      if !fs.contains fsPath then
        Except.error (PyErr.notFound "Trash entry not found.")
      else if fs.contains r.originalPath then
        Except.error (PyErr.conflict "Original path already exists.")
      else apiRestoreLoop trashRoot fs rest

/-- `apis/trash.py: restore_files` up to task creation: count check
(records modelled from the spec lookup, as for the worker) then the
per-record checks. -/
def restore_files_check (trashRoot : String) (records : List TrashRec)
    (numRequested : Nat) (fs : List String) : Except PyErr Unit :=
  if records.length ≠ numRequested then
    Except.error (PyErr.notFound "Trash entry not found.")
  else apiRestoreLoop trashRoot fs records

/-- C8 counterexample: restoring the ledger entry `a.txt` (original path
`/docs/a.txt`) while `/docs/a.txt` already exists does not synthesize any
renamed destination: the submission API fails with
`ConflictError("Original path already exists.")`, and the worker skips the
entry as failed — the filesystem and the ledger record are left untouched
and the (single-entry) batch ends in the all-failed error. -/
theorem c8_restore_no_rename_synthesis :
    restore_files_check "/t" [⟨7, "a.txt", "/docs/a.txt"⟩] 1
        ["/t/a.txt", "/docs/a.txt"]
      = Except.error (PyErr.conflict "Original path already exists.")
    ∧ process_restore_task "/t" [⟨7, "a.txt", "/docs/a.txt"⟩] 1
        ["/t/a.txt", "/docs/a.txt"] (fun _ => false)
      = (["/t/a.txt", "/docs/a.txt"], [⟨7, "a.txt", "/docs/a.txt"⟩], 0, ["a.txt"], [],
          Except.error (PyErr.internal "All 1 file(s) failed to trash: a.txt")) := by
  refine ⟨rfl, rfl⟩

/-- C8 (amended): restore resolves the requested identifiers as unique
entry names via the ledger lookup and fails `NotFound` when the lookup
does not return one record per requested name; each record's physical
object under the trash root is verified, a missing object marking the
entry failed (kept in the ledger); if the destination (original) path
already exists the submission API fails `Conflict` and the worker marks
the entry failed — no renamed `name (1)`-style destination is synthesized
by either path; otherwise the object is moved back and the ledger record
is deleted only after the move succeeds (a failing move keeps the record
and marks the entry failed). -/
theorem c8_restore_semantics (trashRoot : String) (records : List TrashRec)
    (numRequested : Nat) (fs : List String) (moveFails : String → Bool)
    (r : TrashRec) (rest : List TrashRec) (kept : List TrashRec)
    (processed : Nat) (failed : List String) (evs : List (Nat × Nat))
    (total : Nat) :
    (records.length ≠ numRequested →
      process_restore_task trashRoot records numRequested fs moveFails
        = (fs, records, 0, [], [],
            Except.error (PyErr.notFound "Trash entry not found.")) ∧
      restore_files_check trashRoot records numRequested fs
        = Except.error (PyErr.notFound "Trash entry not found."))
    ∧ (∀ fsPath, ensure_inside_trash trashRoot r.entryName = Except.ok fsPath →
      (fs.contains fsPath = false →
        restoreLoopGo trashRoot moveFails total (r :: rest) fs kept processed failed evs
          = restoreLoopGo trashRoot moveFails total rest fs (kept ++ [r]) processed
              (failed ++ [r.entryName]) evs) ∧
      (fs.contains fsPath = true → fs.contains r.originalPath = true →
        restoreLoopGo trashRoot moveFails total (r :: rest) fs kept processed failed evs
          = restoreLoopGo trashRoot moveFails total rest fs (kept ++ [r]) processed
              (failed ++ [r.entryName]) evs ∧
        apiRestoreLoop trashRoot fs (r :: rest)
          = Except.error (PyErr.conflict "Original path already exists.")) ∧
      (fs.contains fsPath = true → fs.contains r.originalPath = false →
        moveFails fsPath = true →
        restoreLoopGo trashRoot moveFails total (r :: rest) fs kept processed failed evs
          = restoreLoopGo trashRoot moveFails total rest fs (kept ++ [r]) processed
              (failed ++ [r.entryName]) evs) ∧
      (fs.contains fsPath = true → fs.contains r.originalPath = false →
        moveFails fsPath = false →
        restoreLoopGo trashRoot moveFails total (r :: rest) fs kept processed failed evs
          = restoreLoopGo trashRoot moveFails total rest
              ((fs.erase fsPath) ++ [r.originalPath]) kept (processed + 1) failed
              (evs ++ [(processed + 1, total)]))) := by
  constructor
  · intro hne
    constructor
    · unfold process_restore_task
      rw [if_pos hne]
    · unfold restore_files_check
      rw [if_pos hne]
  · intro fsPath hok
    refine ⟨?_, ?_, ?_, ?_⟩
    · intro hmiss
      simp only [restoreLoopGo, hok, hmiss, Bool.not_false, if_true]
    · intro hhit horig
      constructor
      · simp only [restoreLoopGo, hok, hhit, Bool.not_true, Bool.false_eq_true,
          if_false, horig, if_true]
      · simp only [apiRestoreLoop, hok, hhit, Bool.not_true, Bool.false_eq_true,
          if_false, horig, if_true]
    · intro hhit horig hmf
      simp only [restoreLoopGo, hok, hhit, Bool.not_true, Bool.false_eq_true,
        if_false, horig, hmf, if_true]
    · intro hhit horig hmf
      simp only [restoreLoopGo, hok, hhit, Bool.not_true, Bool.false_eq_true,
        if_false, horig, hmf]

/-- C8 witness: the amended theorem applied concretely — a successful
restore of `a.txt` to `/docs/a.txt` moves the object and proceeds with the
record deleted from the ledger (the `kept` list does not grow). -/
theorem c8_restore_semantics_witness :
    restoreLoopGo "/t" (fun _ => false) 1 [⟨7, "a.txt", "/docs/a.txt"⟩]
        ["/t/a.txt"] [] 0 [] []
      = restoreLoopGo "/t" (fun _ => false) 1 []
          ((["/t/a.txt"].erase "/t/a.txt") ++ ["/docs/a.txt"]) [] 1 []
          ([] ++ [(1, 1)]) :=
  ((c8_restore_semantics "/t" [] 0 ["/t/a.txt"] (fun _ => false)
      ⟨7, "a.txt", "/docs/a.txt"⟩ [] [] 0 [] [] 1).2
    "/t/a.txt" rfl).2.2.2 (by decide) (by decide) rfl

/-! ### Root listing (`apis/files.py: list_files`,
`StorageService.list_mounted_storages`) -/

/-- File kinds (`domain/values/files/file.py: Type`). -/
inductive FType
  | file
  | directory
deriving DecidableEq, Repr

/-- The virtual file entry (`domain/values/files/file.py: File`), the
`type` field renamed `ftype`; timestamps as `Nat`. -/
structure FileEnt where
  name : String
  path : String
  ftype : FType
  size : Nat
  mimeType : String
  createdAt : Nat
  modifiedAt : Nat
  accessedAt : Nat
deriving DecidableEq, Repr

/-- The mount-to-entry conversion inside
`StorageService.list_mounted_storages`: the name is the first component of
the slash-stripped mount path (`mount_path.strip("/").split("/")[0]`); the
entry is a zero-size directory with `inode/directory` MIME and the
storage's timestamps. -/
def storageToFileEnt (s : Storage) : FileEnt :=
  { name := (splitSlash (stripSlash s.mountPath)).headD "",
    path := s.mountPath, ftype := FType.directory, size := 0,
    mimeType := "inode/directory", createdAt := s.createdAt,
    modifiedAt := s.updatedAt, accessedAt := s.updatedAt }

/-- The final `files.sort(key=lambda f: f.path)` (stable ascending). -/
def sortByPath (l : List FileEnt) : List FileEnt :=
  List.insertionSort (fun a b => ¬ b.path < a.path) l

/-- `StorageService.list_mounted_storages`: the cached storages, filtered
to enabled ones when requested, the root mount excluded, converted to
directory entries and sorted by mount path. -/
def list_mounted_storages (cache : List (String × Storage))
    (enabledOnly : Bool) : List FileEnt :=
  sortByPath
    (((if enabledOnly then (cache.map Prod.snd).filter (fun s => s.enabled)
       else cache.map Prod.snd).filter
      (fun s => s.mountPath ≠ "/")).map storageToFileEnt)

/-- `LocalDriver.list_dir` restricted to the entry names it returns: the
queried path is resolved through `_get_physical_path`, the directory must
exist (`_validate_directory`), and the (symlink-free) directory's children
are returned; the filesystem is modelled by a children map on physical
paths (`none` = no such directory). -/
def localListNames (rootPath trashPath : String) (base : DriverBase)
    (children : String → Option (List String)) (path : String) :
    Except PyErr (List String) :=
  match get_physical_path rootPath trashPath base path with
  | Except.error e => Except.error e
  | Except.ok pp =>
    match children pp with
    | none => Except.error (PyErr.notFound "Directory not found.")
    | some cs => Except.ok cs

/-- `apis/files.py: list_files` restricted to entry names: resolve the
driver for the queried path via the storage service and return that one
driver's listing. `list_mounted_storages` is never consulted. The
object-store branch is abstracted by `s3List`. -/
def list_files_names (cache : List (String × Storage)) (cwd : String)
    (children : String → Option (List String))
    (s3List : Storage → String → Except PyErr (List String))
    (path : String) : Except PyErr (List String) :=
  if (get_driver_storage cache cwd path).type = StorageType.local then
    localListNames (get_driver_storage cache cwd path).rootPath
      (get_driver_storage cache cwd path).trashPath DriverBase.regular
      children path
  else s3List (get_driver_storage cache cwd path) path

/-- The local root mount of the C9 scenario. -/
def c9LocalStorage : Storage :=
  { storageId := 1, mountPath := "/", type := StorageType.local,
    rootPath := "/srv/data", trashPath := "/srv/data/.trash",
    enabled := true, createdAt := 11, updatedAt := 12 }

/-- The object-store mount of the C9 scenario. -/
def c9S3Storage : Storage :=
  { storageId := 2, mountPath := "/s3", type := StorageType.s3,
    rootPath := "", trashPath := "",
    enabled := true, createdAt := 21, updatedAt := 22 }

/-- The C9 mount cache: `/` local, `/s3` object store. -/
def c9Cache : List (String × Storage) := [("/", c9LocalStorage), ("/s3", c9S3Storage)]

/-- The C9 physical filesystem: the local root holds `docs` and `a.txt`. -/
def c9Children (d : String) : Option (List String) :=
  if d = "/srv/data" then some ["docs", "a.txt"] else none

/-- C9, evaluated on the code at the claim's scenario: `list("/")` with
mounts `/` (local) and `/s3` (object store) returns only the local root's
children `docs`, `a.txt` — no synthetic `s3` entry appears, because
`list_files` hands the whole listing to the matched driver and never calls
`list_mounted_storages`; that (never-invoked) helper does compute exactly
the one synthetic directory entry named `s3` that the claim and spec
scenario describe. -/
theorem c9_root_listing_lacks_mount_entry :
    list_files_names c9Cache "/cwd" c9Children (fun _ _ => Except.ok []) "/"
      = Except.ok ["docs", "a.txt"]
    ∧ ((["docs", "a.txt"] : List String).contains "s3") = false
    ∧ (list_mounted_storages c9Cache true).map (fun f => f.name) = ["s3"]
    ∧ (list_mounted_storages c9Cache true).map (fun f => f.ftype)
      = [FType.directory] := by
  refine ⟨rfl, by decide, by decide, by decide⟩

end LilyCloud
